import Mathlib

/-!
Verification of the quiz-editor repository: a JSON document editor
(`QuizEditorApp` / `EnhancedQuizEditorApp`), the database integration module
(`DatabaseIntegration`), and the Telegram menu keyboard helper
(`get_bot_commands`).  Python values are shallowly embedded: JSON documents
as an inductive `Json` type, Python strings as Lean `String`, machine
integers as `Int`/`Nat` (Python ints are unbounded, so no wrap-around), and
fallible code as `Option`/`Except`.
-/

namespace H3

/-! ## Python string helpers -/

/-- Characters stripped by Python `str.strip()` (ASCII whitespace:
space, tab, newline, carriage return, vertical tab, form feed). -/
def isPySpace (c : Char) : Bool :=
  c.toNat = 32 || c.toNat = 9 || c.toNat = 10 || c.toNat = 13 ||
  c.toNat = 11 || c.toNat = 12

/-- `str.strip()` on a character list. -/
def pyStripList (cs : List Char) : List Char :=
  ((cs.dropWhile isPySpace).reverse.dropWhile isPySpace).reverse

/-- Python `str.strip()`. -/
def pyStrip (s : String) : String := ⟨pyStripList s.data⟩

/-! ## JSON values

JSON-representable Python data: `None`, `bool`, `int`, `str`, `list`,
`dict` (with string keys, insertion-ordered).  Floats do not occur in the
quiz documents the editor builds and are left out of the model. -/

inductive Json where
  | null
  | bool (b : Bool)
  | int (n : Int)
  | str (s : String)
  | arr (xs : List Json)
  | obj (fs : List (String × Json))
  deriving Repr

mutual

/-- Decidable equality on `Json` (written by hand: `deriving` does not
handle the nested `List` occurrences). -/
def Json.decEq : (a b : Json) → Decidable (a = b)
  | .null, .null => isTrue rfl
  | .bool a, .bool b =>
    if h : a = b then isTrue (by rw [h]) else isFalse (by simp [h])
  | .int a, .int b =>
    if h : a = b then isTrue (by rw [h]) else isFalse (by simp [h])
  | .str a, .str b =>
    if h : a = b then isTrue (by rw [h]) else isFalse (by simp [h])
  | .arr xs, .arr ys =>
    match Json.decEqList xs ys with
    | isTrue h => isTrue (by rw [h])
    | isFalse h => isFalse (by simp [h])
  | .obj xs, .obj ys =>
    match Json.decEqFields xs ys with
    | isTrue h => isTrue (by rw [h])
    | isFalse h => isFalse (by simp [h])
  | .null, .bool _ => isFalse nofun
  | .null, .int _ => isFalse nofun
  | .null, .str _ => isFalse nofun
  | .null, .arr _ => isFalse nofun
  | .null, .obj _ => isFalse nofun
  | .bool _, .null => isFalse nofun
  | .bool _, .int _ => isFalse nofun
  | .bool _, .str _ => isFalse nofun
  | .bool _, .arr _ => isFalse nofun
  | .bool _, .obj _ => isFalse nofun
  | .int _, .null => isFalse nofun
  | .int _, .bool _ => isFalse nofun
  | .int _, .str _ => isFalse nofun
  | .int _, .arr _ => isFalse nofun
  | .int _, .obj _ => isFalse nofun
  | .str _, .null => isFalse nofun
  | .str _, .bool _ => isFalse nofun
  | .str _, .int _ => isFalse nofun
  | .str _, .arr _ => isFalse nofun
  | .str _, .obj _ => isFalse nofun
  | .arr _, .null => isFalse nofun
  | .arr _, .bool _ => isFalse nofun
  | .arr _, .int _ => isFalse nofun
  | .arr _, .str _ => isFalse nofun
  | .arr _, .obj _ => isFalse nofun
  | .obj _, .null => isFalse nofun
  | .obj _, .bool _ => isFalse nofun
  | .obj _, .int _ => isFalse nofun
  | .obj _, .str _ => isFalse nofun
  | .obj _, .arr _ => isFalse nofun

/-- Decidable equality for lists of `Json`. -/
def Json.decEqList : (xs ys : List Json) → Decidable (xs = ys)
  | [], [] => isTrue rfl
  | [], _ :: _ => isFalse nofun
  | _ :: _, [] => isFalse nofun
  | x :: xs, y :: ys =>
    match Json.decEq x y, Json.decEqList xs ys with
    | isTrue h1, isTrue h2 => isTrue (by rw [h1, h2])
    | isFalse h1, _ => isFalse (by simp [h1])
    | _, isFalse h2 => isFalse (by simp [h2])

/-- Decidable equality for JSON object field lists. -/
def Json.decEqFields : (xs ys : List (String × Json)) → Decidable (xs = ys)
  | [], [] => isTrue rfl
  | [], _ :: _ => isFalse nofun
  | _ :: _, [] => isFalse nofun
  | (k1, v1) :: xs, (k2, v2) :: ys =>
    match String.decEq k1 k2, Json.decEq v1 v2, Json.decEqFields xs ys with
    | isTrue h0, isTrue h1, isTrue h2 => isTrue (by rw [h0, h1, h2])
    | isFalse h0, _, _ => isFalse (by simp [h0])
    | _, isFalse h1, _ => isFalse (by simp [h1])
    | _, _, isFalse h2 => isFalse (by simp [h2])

end

instance : DecidableEq Json := Json.decEq

instance : BEq Json := ⟨fun a b => decide (a = b)⟩

instance : LawfulBEq Json where
  eq_of_beq h := by simpa [BEq.beq] using h
  rfl := by simp [BEq.beq]

/-- Dict key lookup (`d[k]` / `d.get(k)`), first matching key. -/
def objLookup (fs : List (String × Json)) (k : String) : Option Json :=
  (fs.find? (fun p => p.1 == k)).map (·.2)

/-- Python `d.get(k, default)`. -/
def jget (fs : List (String × Json)) (k : String) (dflt : Json) : Json :=
  (objLookup fs k).getD dflt

/-- Python truthiness of a JSON value (`None`, `False`, `0`, `""`, `[]`,
`{}` are falsy). -/
def jTruthy : Json → Bool
  | .null => false
  | .bool b => b
  | .int n => n != 0
  | .str s => !s.isEmpty
  | .arr xs => !xs.isEmpty
  | .obj fs => !fs.isEmpty

/-- Python `len()`: defined for strings, lists and dicts; `none` models the
`TypeError` raised on other values. -/
def pyLen : Json → Option Nat
  | .str s => some s.length
  | .arr xs => some xs.length
  | .obj fs => some fs.length
  | _ => none

/-- Python `k in v` for a string `k`: key test on dicts, membership on
lists, substring test on strings; `none` models the `TypeError` on
`int`/`bool`/`None`. -/
def pyContains (k : String) : Json → Option Bool
  | .obj fs => some (fs.any (fun p => p.1 == k))
  | .arr xs => some (xs.any (fun v => v == .str k))
  | .str s => some (decide (k.data <:+: s.data))
  | _ => none

/-! ## Decimal rendering of integers (Python `str`/`json.dump` on ints) -/

/-- Decimal digits of a natural number, least significant first; the fuel
(suffices as soon as it is at least the number itself) keeps the recursion
structural. -/
def natDigitsAux : Nat → Nat → List Char
  | 0, _ => []
  | _ + 1, 0 => []
  | fuel + 1, n => Nat.digitChar (n % 10) :: natDigitsAux fuel (n / 10)

/-- Decimal digit characters of a natural number, most significant first. -/
def natChars (n : Nat) : List Char :=
  if n = 0 then ['0'] else (natDigitsAux n n).reverse

/-- Decimal rendering of a Python int. -/
def intChars (n : Int) : List Char :=
  if n < 0 then '-' :: natChars n.natAbs else natChars n.toNat

/-- Decimal rendering as a string (Python `str(n)` for a natural). -/
def natStr (n : Nat) : String := ⟨natChars n⟩

/-- Numeric value of a decimal digit character. -/
def digitVal (c : Char) : Nat := c.toNat - 48

/-- Decimal digit predicate (`'0'` to `'9'`). -/
def isDig (c : Char) : Bool := 48 ≤ c.toNat && c.toNat ≤ 57

/-- Value of a most-significant-first decimal digit string. -/
def digitsToNat (cs : List Char) : Nat :=
  cs.foldl (fun a c => 10 * a + digitVal c) 0

/-! ## JSON serialization

`json.dump(data, f, ensure_ascii=False, indent=i)` as used by
`save_to_file` (indent 2), `export_to_json` (indent 2 or, when minified,
`indent=None` with default separators) and `json.dumps(...,
ensure_ascii=False)` in `_import_single_question`. -/

/-- Escape of one character inside a JSON string, per Python's encoder
with `ensure_ascii=False`: only `"`, `\` and control characters are
escaped (`\u00xx` with lowercase hex for controls without a short form). -/
def escChar (c : Char) : List Char :=
  if c = '"' then ['\\', '"']
  else if c = '\\' then ['\\', '\\']
  else if c = '\n' then ['\\', 'n']
  else if c = '\t' then ['\\', 't']
  else if c = '\r' then ['\\', 'r']
  else if c.toNat = 8 then ['\\', 'b']
  else if c.toNat = 12 then ['\\', 'f']
  else if c.toNat < 32 then
    ['\\', 'u', '0', '0', Nat.digitChar (c.toNat / 16), Nat.digitChar (c.toNat % 16)]
  else [c]

/-- Escaped body of a JSON string. -/
def escString (cs : List Char) : List Char :=
  cs.foldr (fun c acc => escChar c ++ acc) []

/-- A quoted JSON string literal. -/
def renderStr (s : String) : List Char :=
  '"' :: (escString s.data ++ ['"'])

/-- `n` spaces. -/
def spaces (n : Nat) : List Char := List.replicate n ' '

/-- What precedes the first item of a non-empty array/object: a newline
plus indentation when an indent is given, nothing otherwise. -/
def itemPre (ind : Option Nat) (d : Nat) : List Char :=
  match ind with
  | none => []
  | some n => '\n' :: spaces (n * d)

/-- The separator before each further item: `", "` without indent
(Python's default separators), `",\n" ++ indentation` with indent. -/
def itemSep (ind : Option Nat) (d : Nat) : List Char :=
  match ind with
  | none => [',', ' ']
  | some n => ',' :: '\n' :: spaces (n * d)

/-- What precedes the closing bracket of a non-empty array/object. -/
def closePre (ind : Option Nat) (d : Nat) : List Char :=
  match ind with
  | none => []
  | some n => '\n' :: spaces (n * d)

mutual

/-- Characters written by `json.dump(v, ensure_ascii=False, indent=ind)`
at nesting depth `d`. -/
def render (ind : Option Nat) (d : Nat) : Json → List Char
  | .null => ['n', 'u', 'l', 'l']
  | .int n => intChars n
  | .bool true => ['t', 'r', 'u', 'e']
  | .bool false => ['f', 'a', 'l', 's', 'e']
  | .str s => renderStr s
  | .arr [] => ['[', ']']
  | .arr (x :: xs) =>
    '[' :: (itemPre ind (d + 1) ++ render ind (d + 1) x ++
      renderItems ind (d + 1) xs ++ closePre ind d ++ [']'])
  | .obj [] => ['\x7b', '\x7d']
  | .obj ((k, v) :: fs) =>
    '\x7b' :: (itemPre ind (d + 1) ++ renderStr k ++ ':' :: ' ' ::
      render ind (d + 1) v ++
      renderFields ind (d + 1) fs ++ closePre ind d ++ ['\x7d'])
termination_by structural x => x

/-- The remaining items of a non-empty array, each with its separator. -/
def renderItems (ind : Option Nat) (d : Nat) : List Json → List Char
  | [] => []
  | x :: xs => itemSep ind d ++ render ind d x ++ renderItems ind d xs
termination_by structural x => x

/-- The remaining entries of a non-empty object, each as
`sep ++ "key": value`. -/
def renderFields (ind : Option Nat) (d : Nat) : List (String × Json) → List Char
  | [] => []
  | (k, v) :: fs =>
    itemSep ind d ++ renderStr k ++ ':' :: ' ' :: render ind d v ++
      renderFields ind d fs
termination_by structural x => x

end

/-! ## JSON parsing

`json.load` / `json.loads`, modelled from its documented grammar, restricted
to the value sorts of `Json` (numbers are integers; the quiz files the
editor reads and writes contain no floats).  `none` models a raised
`JSONDecodeError`. -/

/-- JSON inter-token whitespace (space, tab, newline, carriage return). -/
def isJsonWs (c : Char) : Bool :=
  c.toNat = 32 || c.toNat = 9 || c.toNat = 10 || c.toNat = 13

/-- Skip inter-token whitespace. -/
def skipWs : List Char → List Char
  | [] => []
  | c :: cs => if isJsonWs c then skipWs cs else c :: cs

/-- Value of one hexadecimal digit character. -/
def hexVal (c : Char) : Option Nat :=
  if 48 ≤ c.toNat ∧ c.toNat ≤ 57 then some (c.toNat - 48)
  else if 97 ≤ c.toNat ∧ c.toNat ≤ 102 then some (c.toNat - 87)
  else if 65 ≤ c.toNat ∧ c.toNat ≤ 70 then some (c.toNat - 55)
  else none

/-- Decoded character of a one-letter escape (`\"`, `\\`, `\/`, `\n`,
`\t`, `\r`, `\b`, `\f`). -/
def escDecode (e : Char) : Option Char :=
  if e = '"' then some '"'
  else if e = '\\' then some '\\'
  else if e = '/' then some '/'
  else if e = 'n' then some '\n'
  else if e = 't' then some '\t'
  else if e = 'r' then some '\r'
  else if e = 'b' then some (Char.ofNat 8)
  else if e = 'f' then some (Char.ofNat 12)
  else none

/-- Body of a JSON string after the opening quote: returns the decoded
characters and the input after the closing quote.  Raw control characters
are rejected (Python's strict mode); escapes are decoded. -/
def parseStrBody : List Char → Option (List Char × List Char)
  | [] => none
  | c :: rest =>
    if c = '"' then some ([], rest)
    else if c = '\\' then
      match rest with
      | [] => none
      | e :: rest2 =>
        if e = 'u' then
          match rest2 with
          | h1 :: h2 :: h3 :: h4 :: rest3 =>
            match hexVal h1, hexVal h2, hexVal h3, hexVal h4 with
            | some a, some b, some hc, some hd =>
              (parseStrBody rest3).map fun p =>
                (Char.ofNat (((a * 16 + b) * 16 + hc) * 16 + hd) :: p.1, p.2)
            | _, _, _, _ => none
          | _ => none
        else
          match escDecode e with
          | some dc => (parseStrBody rest2).map fun p => (dc :: p.1, p.2)
          | none => none
    else if c.toNat < 32 then none
    else (parseStrBody rest).map fun p => (c :: p.1, p.2)

/-- An unsigned decimal integer token. -/
def parseDigits (s : List Char) : Option (Nat × List Char) :=
  let ds := s.takeWhile isDig
  if ds.isEmpty then none else some (digitsToNat ds, s.dropWhile isDig)

/-- An integer token with optional leading minus sign. -/
def parseIntTok : List Char → Option (Json × List Char)
  | [] => none
  | c :: rest =>
    if c = '-' then (parseDigits rest).map fun p => (.int (-(p.1 : Int)), p.2)
    else (parseDigits (c :: rest)).map fun p => (.int (p.1 : Int), p.2)

/-- Does the rest of a literal keyword follow?  Returns what comes after. -/
def expectLit : List Char → List Char → Option (List Char)
  | [], s => some s
  | _ :: _, [] => none
  | l :: ls, c :: cs => if c = l then expectLit ls cs else none

mutual

/-- One JSON value from the front of the input (leading whitespace
skipped), returning the value and the remaining input.  The fuel bounds
recursion depth; `load` supplies more than any input can need. -/
def parseVal : Nat → List Char → Option (Json × List Char)
  | 0, _ => none
  | fuel + 1, s =>
    match skipWs s with
    | [] => none
    | c :: rest =>
      if c = 'n' then (expectLit ['u', 'l', 'l'] rest).map fun r => (.null, r)
      else if c = 't' then
        (expectLit ['r', 'u', 'e'] rest).map fun r => (.bool true, r)
      else if c = 'f' then
        (expectLit ['a', 'l', 's', 'e'] rest).map fun r => (.bool false, r)
      else if c = '"' then
        (parseStrBody rest).map fun p => (.str ⟨p.1⟩, p.2)
      else if c = '[' then
        if (skipWs rest).head? = some ']' then some (.arr [], (skipWs rest).tail)
        else (parseItems fuel rest).map fun p => (.arr p.1, p.2)
      else if c = '\x7b' then
        if (skipWs rest).head? = some '\x7d' then
          some (.obj [], (skipWs rest).tail)
        else (parseFields fuel rest).map fun p => (.obj p.1, p.2)
      else parseIntTok (c :: rest)

/-- The items of a non-empty array, up to and including the closing
bracket. -/
def parseItems : Nat → List Char → Option (List Json × List Char)
  | 0, _ => none
  | fuel + 1, s =>
    match parseVal fuel s with
    | none => none
    | some (v, r) =>
      match skipWs r with
      | [] => none
      | c :: r2 =>
        if c = ',' then (parseItems fuel r2).map fun p => (v :: p.1, p.2)
        else if c = ']' then some ([v], r2)
        else none

/-- The entries of a non-empty object, up to and including the closing
brace. -/
def parseFields : Nat → List Char → Option (List (String × Json) × List Char)
  | 0, _ => none
  | fuel + 1, s =>
    match skipWs s with
    | [] => none
    | c :: r =>
      if c = '"' then
        match parseStrBody r with
        | none => none
        | some (k, r2) =>
          match skipWs r2 with
          | [] => none
          | c2 :: r3 =>
            if c2 = ':' then
              match parseVal fuel r3 with
              | none => none
              | some (v, r4) =>
                match skipWs r4 with
                | [] => none
                | c3 :: r5 =>
                  if c3 = ',' then
                    (parseFields fuel r5).map fun p => ((⟨k⟩, v) :: p.1, p.2)
                  else if c3 = '\x7d' then some ([(⟨k⟩, v)], r5)
                  else none
            else none
      else none

end

/-- `json.load(f)` on file content `s`: parse one value and require only
whitespace after it. -/
def load (s : String) : Option Json :=
  match parseVal (s.data.length + 1) s.data with
  | some (v, rest) => if (skipWs rest).isEmpty then some v else none
  | none => none

/-! ## The editor state and file operations

`QuizEditorApp` and `EnhancedQuizEditorApp` keep the document in
`self.data`; the fields the claims talk about are modelled here.  Widget
contents are not state of the document and are left out. -/

/-- Dict key membership (Python `k in d` for a dict). -/
def hasKeyB (fs : List (String × Json)) (k : String) : Bool :=
  fs.any (fun p => p.1 == k)

structure EditorState where
  data : Json
  current_file_path : Option String
  current_question_index : Int
  deriving Repr, DecidableEq

/-- The state both classes start from (`__init__`). -/
def initState : EditorState :=
  { data := .obj [("topic", .obj [("id", .int 1), ("name", .str ""),
      ("description", .str "")]), ("questions", .arr [])]
    current_file_path := none
    current_question_index := -1 }

/-- Outcome of an `open_file` call: a JSON parse error message, the
missing-`topic`/`questions` error, a caught exception before the document
was replaced, or the file accepted (`uiErr` records whether one of the
interface-update calls made afterwards raised, which is caught and shown
as an error box without undoing the assignments). -/
inductive OpenRes where
  | parseErr
  | fieldsErr
  | caughtErr
  | okOpened (uiErr : Bool)
  deriving Repr, DecidableEq

/-- Can `len(text)` and `text[:40] + "..."` (only evaluated when the
length exceeds the threshold) be computed without a `TypeError`? -/
def textLenSliceOk (threshold : Nat) : Json → Bool
  | .str _ => true
  | .arr xs => xs.length ≤ threshold
  | .obj fs => fs.length ≤ threshold
  | _ => false

/-- Does `QuizEditorApp.update_questions_list` raise on one question row
(`question["text"]`, `len`, slicing, `question["question_type"]`,
`question["difficulty"]`)? -/
def quizRowErr (q : Json) : Bool :=
  match q with
  | .obj qf =>
    match objLookup qf "text" with
    | some t =>
      !textLenSliceOk 40 t || !hasKeyB qf "question_type" ||
        !hasKeyB qf "difficulty"
    | none => true
  | _ => true

/-- Does `QuizEditorApp.update_topic_info` / `update_questions_list` raise
after a document replacement (the exception is caught by `open_file` and
shown as an error)? -/
def quizUiErr (d : Json) : Bool :=
  match d with
  | .obj fs =>
    (match objLookup fs "topic" with
     | some (.obj tf) => !hasKeyB tf "name" || !hasKeyB tf "description"
     | _ => true) ||
    (match objLookup fs "questions" with
     | some (.arr qs) => qs.any quizRowErr
     | some (.str s) => !s.isEmpty
     | some (.obj tf) => !tf.isEmpty
     | _ => true)
  | _ => true

/-- `QuizEditorApp.open_file` (lines 273-300) on a chosen path whose file
holds `content`: parse, check for the `topic` and `questions` keys, and
only then replace the document, path and question index. -/
def quizOpenFile (st : EditorState) (path : String) (content : String) :
    EditorState × OpenRes :=
  match load content with
  | none => (st, .parseErr)
  | some d =>
    match pyContains "topic" d, pyContains "questions" d with
    | some ht, some hq =>
      if !ht || !hq then (st, .fieldsErr)
      else ({ data := d, current_file_path := some path,
              current_question_index := -1 }, .okOpened (quizUiErr d))
    | _, _ => (st, .caughtErr)

/-- `EnhancedQuizEditorApp.is_question_valid` (lines 1726-1734 and
3118-3126): `none` models the `TypeError`/`AttributeError` raised when
`text` is not a string or `options` has no `len`. -/
def is_question_valid (qf : List (String × Json)) : Option Bool :=
  match jget qf "text" (.str "") with
  | .str t =>
    if (pyStrip t).isEmpty then some false
    else
      match pyLen (jget qf "options" (.arr [])) with
      | none => none
      | some n =>
        if n < 2 then some false
        else some (jTruthy (jget qf "correct_answer" .null))
  | _ => none

/-- Does `EnhancedQuizEditorApp.update_questions_list` raise on one
question row (with the default empty search filter)? -/
def enhRowErr (q : Json) : Bool :=
  match q with
  | .obj qf =>
    match objLookup qf "text" with
    | some (.str _) =>
      (is_question_valid qf).isNone || !hasKeyB qf "question_type"
    | _ => true
  | _ => true

/-- Unhashable JSON values (`list`/`dict`), which raise when used in a
dict-membership test in `update_stats`. -/
def unhashable : Json → Bool
  | .arr _ => true
  | .obj _ => true
  | _ => false

/-- Does `EnhancedQuizEditorApp.update_stats` raise on one question row? -/
def statsRowErr (q : Json) : Bool :=
  match q with
  | .obj qf =>
    unhashable (jget qf "difficulty" (.int 1)) ||
      unhashable (jget qf "question_type" (.str "single"))
  | _ => true

/-- Does the `update_topic_info` / `update_questions_list` /
`update_stats` chain after `EnhancedQuizEditorApp.open_file` replaces the
document raise (caught and shown as an error box)?  `update_topic_info`
runs `self.data.get("topic", {}).get("name", ...)`, so a present non-dict
`topic` value raises `AttributeError` (lines 1979-1983); a missing one
defaults to an empty dict and `.get` cannot raise on a dict.
`update_questions_list`/`update_stats` subscript `self.data["questions"]`
and iterate it, raising on a missing key, a non-iterable value, or a
per-row failure. -/
def enhUiErr (d : Json) : Bool :=
  match d with
  | .obj fs =>
    (match jget fs "topic" (.obj []) with
     | .obj _ => false
     | _ => true) ||
    (match objLookup fs "questions" with
     | some (.arr qs) => qs.any enhRowErr || qs.any statsRowErr
     | some (.str s) => !s.isEmpty
     | some (.obj tf) => !tf.isEmpty
     | _ => true)
  | _ => true

/-- `EnhancedQuizEditorApp.open_file` (lines 1933-1966): no key check at
all; any successfully parsed JSON replaces the document before the
interface updates run. -/
def enhOpenFile (st : EditorState) (path : String) (content : String) :
    EditorState × OpenRes :=
  match load content with
  | none => (st, .caughtErr)
  | some d =>
    ({ data := d, current_file_path := some path,
       current_question_index := -1 }, .okOpened (enhUiErr d))

/-- File content written by `QuizEditorApp.save_to_file` (lines 320-332):
`json.dump(self.data, file, ensure_ascii=False, indent=2)`. -/
def quizSaveContent (d : Json) : String := ⟨render (some 2) 0 d⟩

/-- File content written by `EnhancedQuizEditorApp.save_to_file` (lines
1744-1760): the same dump call. -/
def enhSaveContent (d : Json) : String := ⟨render (some 2) 0 d⟩

/-- File content written by `EnhancedQuizEditorApp.export_to_json`
(`perform_export`): `indent = None if minify_json.get() else 2`. -/
def exportContent (d : Json) (minify : Bool) : String :=
  ⟨render (if minify then none else some 2) 0 d⟩

/-! ## `DatabaseIntegration._basic_validation` (lines 501-544) -/

def msgNotDict (i : Nat) : String :=
  "Вопрос " ++ natStr (i + 1) ++ " должен быть объектом"

def msgNoText (i : Nat) : String :=
  "Вопрос " ++ natStr (i + 1) ++ ": отсутствует или пустой текст"

def msgNoOptions (i : Nat) : String :=
  "Вопрос " ++ natStr (i + 1) ++ ": отсутствуют варианты ответов"

def msgMinTwo (i : Nat) : String :=
  "Вопрос " ++ natStr (i + 1) ++ ": должно быть минимум 2 варианта ответа"

def msgNoCorrect (i : Nat) : String :=
  "Вопрос " ++ natStr (i + 1) ++ ": отсутствует правильный ответ"

def msgBadType (i : Nat) : String :=
  "Вопрос " ++ natStr (i + 1) ++ ": неверный тип вопроса"

def msgNoTopic : String := "Отсутствует секция \x27topic\x27"
def msgTopicNotDict : String := "Секция \x27topic\x27 должна быть объектом"
def msgEmptyName : String := "Название темы не может быть пустым"
def msgNoQuestions : String := "Отсутствует секция \x27questions\x27"
def msgQuestionsNotList : String := "Секция \x27questions\x27 должна быть массивом"
def msgEmptyQuestions : String := "Список вопросов не может быть пустым"

/-- The errors `_basic_validation` collects for the question at position
`i` (0-based; messages are numbered from 1).  `none` models the
`AttributeError`/`TypeError` the checks raise when `text` is not a string
or `options` has no `len`, which aborts the whole validation. -/
def questionErrors (i : Nat) : Json → Option (List String)
  | .obj qf => do
    let tErr ←
      match jget qf "text" (.str "") with
      | .str t => some (if (pyStrip t).isEmpty then [msgNoText i] else [])
      | _ => none
    let oErr ←
      if !hasKeyB qf "options" || !jTruthy (jget qf "options" .null) then
        some [msgNoOptions i]
      else
        match pyLen (jget qf "options" .null) with
        | none => none
        | some n => some (if n < 2 then [msgMinTwo i] else [])
    let cErr := if !hasKeyB qf "correct_answer" then [msgNoCorrect i] else []
    let qtErr :=
      if jget qf "question_type" .null = .str "single" ∨
         jget qf "question_type" .null = .str "multiple" ∨
         jget qf "question_type" .null = .str "sequence" then ([] : List String)
      else [msgBadType i]
    some (tErr ++ oErr ++ cErr ++ qtErr)
  | _ => some [msgNotDict i]

/-- Fold of `questionErrors` over the question list, numbering from `i`. -/
def questionsErrors (i : Nat) : List Json → Option (List String)
  | [] => some []
  | q :: qs => do
    let e ← questionErrors i q
    let rest ← questionsErrors (i + 1) qs
    some (e ++ rest)

/-- `DatabaseIntegration._basic_validation`: returns
`(no errors, error list)`; `none` models a raised exception. -/
def basic_validation (doc : List (String × Json)) :
    Option (Bool × List String) := do
  let topicErrs ←
    if !hasKeyB doc "topic" then some [msgNoTopic]
    else
      match jget doc "topic" .null with
      | .obj tf =>
        match jget tf "name" (.str "") with
        | .str nm => some (if (pyStrip nm).isEmpty then [msgEmptyName] else [])
        | _ => none
      | _ => some [msgTopicNotDict]
  let questionErrs ←
    if !hasKeyB doc "questions" then some [msgNoQuestions]
    else
      match jget doc "questions" .null with
      | .arr qs => do
        let emptyErr := if qs.isEmpty then [msgEmptyQuestions] else []
        let perQ ← questionsErrors 0 qs
        some (emptyErr ++ perQ)
      | _ => some [msgQuestionsNotList]
  let errs := topicErrs ++ questionErrs
  some (errs.isEmpty, errs)

/-! ## The question form and `save_question_changes`

The editable widgets of the question editor: the text areas, the type
combobox, the difficulty spinbox, the option entry fields, the
answer checkboxes/radio buttons and the sequence order
(`self.sequence_order`, kept as decimal strings in the source). -/

structure QuestionForm where
  text : String
  question_type : String
  difficulty : Int
  explanation : String
  optionEntries : List String
  answerVars : List Bool
  sequenceOrder : List Nat
  imagePath : Option String
  deriving Repr

/-- `QuizEditorApp.get_options` (lines 480-487): entries whose stripped
text is non-empty, kept unstripped. -/
def get_options (entries : List String) : List String :=
  entries.filter (fun s => !(pyStrip s).isEmpty)

/-- `QuizEditorApp.get_correct_answers` (lines 489-512): one index for
`single` (first checked, defaulting to 0), all checked indices for
`multiple`, the stored order as decimal strings for `sequence`. -/
def get_correct_answers (f : QuestionForm) : List Json :=
  if f.question_type = "single" then
    match f.answerVars.enum.find? (fun p => p.2) with
    | some p => [.int p.1]
    | none => [.int 0]
  else if f.question_type = "multiple" then
    (f.answerVars.enum.filter (fun p => p.2)).map (fun p => .int p.1)
  else if f.question_type = "sequence" then
    f.sequenceOrder.map (fun idx => .str (natStr idx))
  else [.int 0]

def msgEmptyText : String := "Текст вопроса не может быть пустым."
def msgNeedTwoOptions : String := "Должно быть минимум 2 варианта ответа."
def msgNeedCorrect : String := "Выберите хотя бы один правильный ответ."
def msgSeqAll : String :=
  "В вопросе с последовательностью нужно выбрать все варианты ответов."
def msgNoSelection : String := "Выберите вопрос для редактирования."
def msgSaveCaught : String := "Ошибка при сохранении вопроса"

/-- `QuizEditorApp.save_question_changes` (lines 416-478): rebuild the
question from the form, validate, and replace entry `idx` of the question
list; `Except.error` carries the message box text of the refusal. -/
def save_question_changes (qs : List Json) (idx : Int) (f : QuestionForm) :
    Except String (List Json) :=
  if idx < 0 then .error msgNoSelection
  else
    if h : idx.toNat < qs.length then
      let old := qs.get ⟨idx.toNat, h⟩
      match old with
      | .obj oldF =>
        let qid : Json :=
          if hasKeyB oldF "id" then jget oldF "id" .null else .int (idx.toNat + 1)
        let text := pyStrip f.text
        let options := get_options f.optionEntries
        let correct := get_correct_answers f
        if text.isEmpty then .error msgEmptyText
        else if options.isEmpty ∨ options.length < 2 then .error msgNeedTwoOptions
        else if correct.isEmpty then .error msgNeedCorrect
        else if f.question_type = "sequence" ∧ correct.length ≠ options.length then
          .error msgSeqAll
        else
          .ok (qs.set idx.toNat (.obj (
            [("id", qid), ("text", .str text),
             ("question_type", .str f.question_type),
             ("difficulty", .int f.difficulty),
             ("explanation", .str (pyStrip f.explanation)),
             ("options", .arr (options.map .str)),
             ("correct_answer", .arr correct)] ++
            (match f.imagePath with
             | some p => [("media_url", .str p)]
             | none => []))))
      | _ => .error msgSaveCaught
    else .error msgSaveCaught

/-! ## `keyboards/menu_kb.py`: `get_bot_commands` (lines 33-66) -/

def get_bot_commands (role : String) : List (String × String) :=
  if role = "student" then
    [("start", "Запустить бота"),
     ("test", "Начать тестирование"),
     ("stats", "Показать статистику"),
     ("achievements", "Показать достижения"),
     ("mycode", "Получить код для родителя"),
     ("help", "Показать справку")]
  else if role = "parent" then
    [("start", "Запустить бота"),
     ("link", "Привязать ученика"),
     ("report", "Получить отчет"),
     ("settings", "Настройки уведомлений"),
     ("help", "Показать справку")]
  else if role = "admin" then
    [("start", "Запустить бота"),
     ("admin", "Панель администратора"),
     ("add_question", "Добавить вопрос"),
     ("import", "Импортировать вопросы"),
     ("export_excel", "Экспорт в Excel"),
     ("help", "Показать справку")]
  else
    [("start", "Запустить бота"),
     ("help", "Показать справка")]

/-! ## `DatabaseIntegration._copy_media_file` (lines 398-436)

The filesystem is modelled by the set of existing source paths and the
names already present in the target `images` directory. -/

/-- `Path(p).name`: the component after the last path separator
(`pathlib` on Windows splits on both `/` and `\`). -/
def pyName (p : String) : String :=
  ⟨(p.data.reverse.takeWhile (fun c => !(c = '/' || c = '\\'))).reverse⟩

/-- `Path(p).stem` and `Path(p).suffix`: split the name at its last dot,
provided that dot is neither the first nor the last character. -/
def pyStemSuffix (p : String) : String × String :=
  let n := (pyName p).data
  match n.reverse.findIdx? (fun c => c = '.') with
  | some j =>
    let i := n.length - 1 - j
    if 0 < i ∧ i < n.length - 1 then (⟨n.take i⟩, ⟨n.drop i⟩) else (⟨n⟩, "")
  | none => (⟨n⟩, "")

def pyStem (p : String) : String := (pyStemSuffix p).1
def pySuffix (p : String) : String := (pyStemSuffix p).2

/-- The `k`-th file name `_copy_media_file` tries: the source name itself,
then `stem_1suffix`, `stem_2suffix`, ... -/
def candName (p : String) : Nat → String
  | 0 => pyName p
  | k + 1 => pyStem p ++ "_" ++ natStr (k + 1) ++ pySuffix p

/-- The `while target_file.exists()` loop: try candidates from index `k`
up; the fuel only bounds the recursion, `dir.length + 1` attempts always
suffice (proved below). -/
def findFreeAux (dir : List String) (p : String) : Nat → Nat → String
  | 0, k => candName p k
  | fuel + 1, k =>
    if dir.contains (candName p k) then findFreeAux dir p fuel (k + 1)
    else candName p k

/-- The target file name `_copy_media_file` settles on. -/
def copyTarget (dir : List String) (p : String) : String :=
  findFreeAux dir p (dir.length + 1) 0

structure MediaFs where
  files : List String
  imagesDir : List String
  deriving Repr

/-- `_copy_media_file`: empty path returns `None`; a missing source
returns the path unchanged (after a logged warning); otherwise the file is
copied to the first free candidate name and `images/<name>` returned. -/
def copy_media_file (fs : MediaFs) (p : String) : Option String × MediaFs :=
  if p = "" then (none, fs)
  else if !fs.files.contains p then (some p, fs)
  else
    let chosen := copyTarget fs.imagesDir p
    (some ("images/" ++ chosen),
      { fs with imagesDir := fs.imagesDir ++ [chosen] })

/-! ## `DatabaseIntegration.import_json_to_database` (lines 258-396)

The ORM session is modelled as explicit state: the stored rows, the trace
of session CRUD calls, and a fault oracle that makes the `n`-th session
call raise (modelling the exceptions the `try`/`except` blocks catch).
Attribute assignments on fetched rows (the update paths) are not session
calls: they are recorded in the trace but cannot fault. -/

structure TopicRow where
  id : Nat
  name : Json
  description : Json
  deriving Repr, DecidableEq

structure QuestionRow where
  id : Nat
  topic_id : Nat
  text : Json
  options : String
  correct_answer : String
  question_type : Json
  difficulty : Json
  media_url : Json
  explanation : Json
  deriving Repr, DecidableEq

inductive DbOp where
  | queryTopic
  | addTopic
  | flushTopic
  | updateTopic
  | queryQuestion
  | addQuestion
  | updateQuestion
  | commit
  deriving Repr, DecidableEq

structure ImportSt where
  topics : List TopicRow
  questions : List QuestionRow
  nextTopicId : Nat
  nextQuestionId : Nat
  media : MediaFs
  ops : List DbOp
  opCount : Nat
  faultAt : Option Nat
  faulted : Bool
  deriving Repr

/-- Result of a stateful computation: Python exceptions keep the side
effects already performed, so the error case carries the state too. -/
inductive MRes (α : Type) where
  | ok (a : α) (s : ImportSt)
  | err (e : String) (s : ImportSt)

def M (α : Type) : Type := ImportSt → MRes α

instance : Monad M where
  pure a := fun s => .ok a s
  bind m f := fun s =>
    match m s with
    | .ok a s' => f a s'
    | .err e s' => .err e s'

def getS : M ImportSt := fun s => .ok s s

def modifyS (f : ImportSt → ImportSt) : M Unit := fun s => .ok () (f s)

def throwM {α : Type} (e : String) : M α := fun s => .err e s

/-- `try ... except`: the handler resumes from the state at the raise. -/
def catchM {α : Type} (m : M α) (h : String → M α) : M α := fun s =>
  match m s with
  | .ok a s' => .ok a s'
  | .err e s' => h e s'

/-- A session call that changes the database: consult the fault oracle,
then record the op and apply the change. -/
def dbStep (op : DbOp) (f : ImportSt → ImportSt) : M Unit := fun s =>
  if s.faultAt = some s.opCount then
    .err "db" { s with opCount := s.opCount + 1, faulted := true }
  else
    .ok () { f s with opCount := s.opCount + 1, ops := s.ops ++ [op] }

/-- A session query: consult the fault oracle, record the op, read. -/
def dbGet {α : Type} (op : DbOp) (g : ImportSt → α) : M α := fun s =>
  if s.faultAt = some s.opCount then
    .err "db" { s with opCount := s.opCount + 1, faulted := true }
  else
    .ok (g s) { s with opCount := s.opCount + 1, ops := s.ops ++ [op] }

/-- A plain attribute assignment on a fetched row: recorded as a CRUD
update in the trace, not a session call, cannot fault. -/
def recOp (op : DbOp) (f : ImportSt → ImportSt) : M Unit := fun s =>
  .ok () { f s with ops := s.ops ++ [op] }

/-- Dict subscription `d[k]`: raises `KeyError` when absent. -/
def jIndexM (fs : List (String × Json)) (k : String) : M Json :=
  match objLookup fs k with
  | some v => pure v
  | none => throwM "KeyError"

/-- Python `f"{v}"` for the JSON values that reach the messages (strings
and ints; containers cannot reach them on validated documents). -/
def pyStrJ : Json → String
  | .str s => s
  | .int n => ⟨intChars n⟩
  | .bool true => "True"
  | .bool false => "False"
  | .null => "None"
  | v => ⟨render none 0 v⟩

/-- `json.dumps(v, ensure_ascii=False)` applied unless the value is
already a string (the `isinstance(options, str)` checks). -/
def dumpsIfNotStr : Json → String
  | .str s => s
  | v => ⟨render none 0 v⟩

/-- `DatabaseIntegration._import_single_question` (lines 338-396).  Its
whole body is inside `try/except`, so it never raises; `(False, "error")`
is returned instead.  The two recorded `updateQuestion` steps batch the
row-attribute assignments around the two throwing `question_data[...]`
subscriptions, preserving which mutations survive a `KeyError`. -/
def import_single_question (tid : Nat) (qd : Json) (update copy : Bool) :
    M (Bool × String) :=
  catchM (do
    match qd with
    | .obj qf => do
      let qid := jget qf "id" .null
      let existing ←
        if jTruthy qid then
          dbGet .queryQuestion (fun s =>
            s.questions.find? (fun r =>
              Json.int (r.id : Int) == qid && r.topic_id == tid))
        else pure none
      match existing, update with
      | some _, false => pure (false, "skipped")
      | _, _ => do
        let options ← jIndexM qf "options"
        let correct ← jIndexM qf "correct_answer"
        let optStr := dumpsIfNotStr options
        let corStr := dumpsIfNotStr correct
        let media := jget qf "media_url" .null
        let media' ←
          if jTruthy media && copy then
            match media with
            | .str mp => do
              let st ← getS
              let pr := copy_media_file st.media mp
              modifyS (fun s => { s with media := pr.2 })
              pure (match pr.1 with | some x => Json.str x | none => Json.null)
            | _ => throwM "TypeError"
          else pure media
        match existing, update with
        | some ex, true => do
          let t ← jIndexM qf "text"
          recOp .updateQuestion (fun s =>
            { s with questions := s.questions.map (fun r =>
                if r.id = ex.id ∧ r.topic_id = tid then
                  { r with text := t, options := optStr, correct_answer := corStr }
                else r) })
          let qt ← jIndexM qf "question_type"
          recOp .updateQuestion (fun s =>
            { s with questions := s.questions.map (fun r =>
                if r.id = ex.id ∧ r.topic_id = tid then
                  { r with question_type := qt, difficulty := jget qf "difficulty" (.int 1), media_url := media', explanation := jget qf "explanation" (.str "") }
                else r) })
          pure (true, "updated")
        | _, _ => do
          let t ← jIndexM qf "text"
          let qt ← jIndexM qf "question_type"
          dbStep .addQuestion (fun s => { s with
            questions := s.questions ++ [{
              id := s.nextQuestionId, topic_id := tid, text := t,
              options := optStr, correct_answer := corStr,
              question_type := qt,
              difficulty := jget qf "difficulty" (.int 1),
              media_url := media',
              explanation := jget qf "explanation" (.str "") }],
            nextQuestionId := s.nextQuestionId + 1 })
          pure (true, "imported")
    | _ => throwM "AttributeError")
  (fun _ => pure (false, "error"))

/-- The `for question_data in questions_data` loop of
`import_json_to_database` with its per-question `try/except: continue`
and the two counters. -/
def importLoop (tid : Nat) (update copy : Bool) :
    List Json → Nat → Nat → M (Nat × Nat)
  | [], ni, nu => pure (ni, nu)
  | qd :: rest, ni, nu => do
    let r ← catchM (import_single_question tid qd update copy)
      (fun _ => pure (false, "error"))
    let p :=
      match r with
      | (true, t) =>
        if t = "imported" then (ni + 1, nu)
        else if t = "updated" then (ni, nu + 1)
        else (ni, nu)
      | _ => (ni, nu)
    importLoop tid update copy rest p.1 p.2

/-- The tail of `import_json_to_database` common to both topic paths: it
runs the question loop, `session.commit()`, and builds the message. -/
def importTail (doc : List (String × Json)) (update copy : Bool)
    (tid : Nat) (nm : Json) : M (Bool × String) := do
  let qds := match jget doc "questions" (.arr []) with
    | .arr l => l
    | _ => []
  -- the passed validation guarantees a list; other sorts cannot reach here
  let p ← importLoop tid update copy qds 0 0
  dbStep .commit (fun s => s)
  let msg := "Тема \x27" ++ pyStrJ nm ++ "\x27: " ++
    (if p.1 > 0 then "создано " ++ natStr p.1 ++ " вопросов" else "") ++
    (if p.2 > 0 then ", обновлено " ++ natStr p.2 ++ " вопросов" else "")
  pure (true, msg)

/-- `DatabaseIntegration.import_json_to_database` (lines 258-336), in the
configuration where the external validators are unavailable so
`validate_json_for_import` falls back to `_basic_validation`. -/
def import_json_to_database (dbAvail : Bool) (doc : List (String × Json))
    (update copy : Bool) : M (Bool × String) :=
  if !dbAvail then pure (false, "База данных недоступна")
  else
    catchM (do
      match basic_validation doc with
      | none => throwM "TypeError"
      | some vr =>
        if !vr.1 then
          pure (false, "Ошибки валидации: " ++ String.intercalate "; " vr.2)
        else do
          let tf := match jget doc "topic" (.obj []) with
            | .obj tf => tf
            | _ => []
          -- the passed validation guarantees a dict topic section
          let tid := jget tf "id" .null
          let existing ←
            if jTruthy tid then
              dbGet .queryTopic (fun s =>
                s.topics.find? (fun t => Json.int (t.id : Int) == tid))
            else pure none
          match existing, update with
          | some _, false =>
            pure (false, "Тема с ID " ++ pyStrJ tid ++
              " уже существует. Включите опцию обновления.")
          | some ex, true => do
            let nm ← jIndexM tf "name"
            recOp .updateTopic (fun s =>
              { s with topics := s.topics.map (fun t =>
                  if t.id = ex.id then
                    { t with name := nm, description := jget tf "description" (.str "") }
                  else t) })
            importTail doc update copy ex.id nm
          | none, _ => do
            let nm ← jIndexM tf "name"
            let st ← getS
            let newId := st.nextTopicId
            dbStep .addTopic (fun s =>
              { s with
                topics := s.topics ++
                  [{ id := s.nextTopicId, name := nm, description := jget tf "description" (.str "") }],
                nextTopicId := s.nextTopicId + 1 })
            dbStep .flushTopic (fun s => s)
            importTail doc update copy newId nm)
      (fun e => pure (false, "Ошибка импорта: " ++ e))

/-- Run one import call; the error case is unreachable (the theorem for
the error-handling claim proves the handler catches everything). -/
def runImport (dbAvail : Bool) (doc : List (String × Json))
    (update copy : Bool) (st : ImportSt) : (Bool × String) × ImportSt :=
  match import_json_to_database dbAvail doc update copy st with
  | .ok r s => (r, s)
  | .err e s => ((false, e), s)

/-! ## Proof infrastructure -/

mutual

/-- Fuel sufficient for `parseVal` to parse a rendering of `v`. -/
def needF : Json → Nat
  | .null => 1
  | .bool _ => 1
  | .int _ => 1
  | .str _ => 1
  | .arr [] => 1
  | .arr (x :: xs) => 1 + needItems (x :: xs)
  | .obj [] => 1
  | .obj (f :: fs) => 1 + needFields (f :: fs)
termination_by structural x => x

/-- Fuel sufficient for `parseItems` on a rendered item list. -/
def needItems : List Json → Nat
  | [] => 0
  | x :: xs => 1 + max (needF x) (needItems xs)
termination_by structural x => x

/-- Fuel sufficient for `parseFields` on a rendered field list. -/
def needFields : List (String × Json) → Nat
  | [] => 0
  | (_, v) :: fs => 1 + max (needF v) (needFields fs)
termination_by structural x => x

end

/-- The remaining input may not start with a decimal digit (so that an
integer token before it keeps its boundary). -/
def notDigStart : List Char → Prop
  | [] => True
  | c :: _ => isDig c = false

/-- The parse-side statement proved for every value by `parse_render`,
also used as the induction hypothesis for list elements. -/
def ParseOK (v : Json) : Prop :=
  ∀ (ind : Option Nat) (d fuel : Nat) (ws tail : List Char),
    needF v ≤ fuel → (∀ c ∈ ws, isJsonWs c = true) → notDigStart tail →
    parseVal fuel (ws ++ (render ind d v ++ tail)) = some (v, tail)

/-- Structural induction over `Json` with membership hypotheses for the
nested lists. -/
def Json.indOn (P : Json → Prop)
    (hn : P .null) (hb : ∀ b, P (.bool b)) (hi : ∀ n, P (.int n))
    (hs : ∀ s, P (.str s))
    (ha : ∀ xs, (∀ x ∈ xs, P x) → P (.arr xs))
    (ho : ∀ fs, (∀ kv ∈ fs, P kv.2) → P (.obj fs)) :
    ∀ v, P v
  | .null => hn
  | .bool b => hb b
  | .int n => hi n
  | .str s => hs s
  | .arr xs => ha xs (fun x hx =>
      have : sizeOf x < 1 + sizeOf xs := by
        have := List.sizeOf_lt_of_mem hx
        omega
      Json.indOn P hn hb hi hs ha ho x)
  | .obj fs => ho fs (fun kv hkv =>
      have : sizeOf kv.2 < 1 + sizeOf fs := by
        have h1 := List.sizeOf_lt_of_mem hkv
        obtain ⟨k, v⟩ := kv
        simp only [Prod.mk.sizeOf_spec] at h1 ⊢
        omega
      Json.indOn P hn hb hi hs ha ho kv.2)
termination_by v => sizeOf v

/-- The property the invariant claim ascribes to accepted questions: every
entry of `correct_answer` is an integer index into the `options` list. -/
def answerIndexOk (opts : List Json) : Json → Bool
  | .int i => decide (0 ≤ i ∧ i < opts.length)
  | _ => false

/-- Spec-side check that a question record only references valid option
indices (used to state the invariant claim, not taken from the code). -/
def correctAnswersValid (qf : List (String × Json)) : Bool :=
  match jget qf "options" .null, jget qf "correct_answer" .null with
  | .arr opts, .arr cas => cas.all (answerIndexOk opts)
  | _, _ => false

/-- The state a computation left behind, whether it returned or raised. -/
def MRes.state {α : Type} : MRes α → ImportSt
  | .ok _ s => s
  | .err _ s => s

/-- A computation that appends to the CRUD trace without ever recording a
commit (used for the transaction claim). -/
def NoCommit {α : Type} (m : M α) : Prop :=
  ∀ st : ImportSt, ∃ ex, (m st).state.ops = st.ops ++ ex ∧ DbOp.commit ∉ ex

/-- The transaction discipline of an import computation: on success the
trace gains some non-commit CRUD calls followed by exactly one final
commit; on a `False` result or a raise it gains no commit at all. -/
def CommitSpec (m : M (Bool × String)) : Prop :=
  ∀ st : ImportSt,
    (∀ r s2, m st = .ok r s2 →
      (r.1 = true → ∃ pre, s2.ops = st.ops ++ pre ++ [DbOp.commit] ∧
        DbOp.commit ∉ pre) ∧
      (r.1 = false → ∃ ex, s2.ops = st.ops ++ ex ∧ DbOp.commit ∉ ex)) ∧
    (∀ e s2, m st = .err e s2 → ∃ ex, s2.ops = st.ops ++ ex ∧ DbOp.commit ∉ ex)

/-- A sample valid import document: one topic without id, one `single`
question. -/
def sampleDoc : List (String × Json) :=
  [("topic", .obj [("name", .str "Тема")]),
   ("questions", .arr [.obj [("text", .str "Вопрос?"),
     ("options", .arr [.str "а", .str "б"]),
     ("correct_answer", .arr [.int 0]),
     ("question_type", .str "single")]])]

/-- A fresh import session whose `n`-th session call (if any) raises. -/
def freshSt (fault : Option Nat) : ImportSt :=
  { topics := [], questions := [], nextTopicId := 1, nextQuestionId := 1,
    media := { files := [], imagesDir := [] }, ops := [], opCount := 0,
    faultAt := fault, faulted := false }

/-! # Supporting lemmas: decimal digits -/

theorem digitVal_digitChar : ∀ d, d < 10 → digitVal (Nat.digitChar d) = d := by
  decide

theorem isDig_digitChar : ∀ d, d < 10 → isDig (Nat.digitChar d) = true := by
  decide

theorem natDigitsAux_foldr (fuel : Nat) : ∀ n, n ≤ fuel →
    (natDigitsAux fuel n).foldr (fun c a => 10 * a + digitVal c) 0 = n := by
  induction fuel with
  | zero => intro n hn; interval_cases n; simp [natDigitsAux]
  | succ f ih =>
    intro n hn
    match n with
    | 0 => simp [natDigitsAux]
    | m + 1 =>
      have hdiv : (m + 1) / 10 ≤ f := by
        have := Nat.div_lt_self (Nat.succ_pos m) (by omega : 1 < 10)
        omega
      simp only [natDigitsAux, List.foldr_cons, ih _ hdiv,
        digitVal_digitChar _ (Nat.mod_lt _ (by omega))]
      omega

theorem natDigitsAux_isDig (fuel : Nat) : ∀ n c, c ∈ natDigitsAux fuel n →
    isDig c = true := by
  induction fuel with
  | zero => intro n c hc; simp [natDigitsAux] at hc
  | succ f ih =>
    intro n c hc
    match n with
    | 0 => simp [natDigitsAux] at hc
    | m + 1 =>
      simp only [natDigitsAux, List.mem_cons] at hc
      rcases hc with hc | hc
      · subst hc; exact isDig_digitChar _ (Nat.mod_lt _ (by omega))
      · exact ih _ _ hc

theorem digitsToNat_natChars (n : Nat) : digitsToNat (natChars n) = n := by
  by_cases h : n = 0
  · subst h; decide
  · simp only [natChars, if_neg h, digitsToNat, List.foldl_reverse]
    exact natDigitsAux_foldr n n le_rfl

theorem natChars_isDig (n : Nat) : ∀ c ∈ natChars n, isDig c = true := by
  intro c hc
  by_cases h : n = 0
  · subst h; simp [natChars] at hc; subst hc; decide
  · simp only [natChars, if_neg h, List.mem_reverse] at hc
    exact natDigitsAux_isDig n n c hc

theorem natChars_ne_nil (n : Nat) : natChars n ≠ [] := by
  by_cases h : n = 0
  · subst h; decide
  · simp only [natChars, if_neg h, ne_eq, List.reverse_eq_nil_iff]
    intro hnil
    have := natDigitsAux_foldr n n le_rfl
    rw [hnil] at this
    simp at this
    omega

theorem natStr_injective : ∀ a b : Nat, natStr a = natStr b → a = b := by
  intro a b h
  have h2 : natChars a = natChars b := congrArg String.data h
  have := digitsToNat_natChars a
  rw [h2, digitsToNat_natChars] at this
  omega

theorem takeWhile_digits_append (ds tail : List Char)
    (h : ∀ c ∈ ds, isDig c = true) (ht : notDigStart tail) :
    (ds ++ tail).takeWhile isDig = ds ∧ (ds ++ tail).dropWhile isDig = tail := by
  induction ds with
  | nil =>
    simp only [List.nil_append]
    cases tail with
    | nil => simp
    | cons c cs =>
      simp only [notDigStart] at ht
      simp [List.takeWhile, List.dropWhile, ht]
  | cons c ds ih =>
    have hc : isDig c = true := h c (by simp)
    have := ih (fun x hx => h x (by simp [hx]))
    simp [List.takeWhile, List.dropWhile, hc, this.1, this.2]

theorem parseDigits_natChars (n : Nat) (tail : List Char)
    (ht : notDigStart tail) :
    parseDigits (natChars n ++ tail) = some (n, tail) := by
  have h := takeWhile_digits_append (natChars n) tail (natChars_isDig n) ht
  simp only [parseDigits, h.1, h.2]
  rw [if_neg (by simpa using natChars_ne_nil n)]
  rw [digitsToNat_natChars]

theorem parseIntTok_intChars (n : Int) (tail : List Char)
    (ht : notDigStart tail) :
    parseIntTok (intChars n ++ tail) = some (.int n, tail) := by
  by_cases hneg : n < 0
  · have he : (-(n.natAbs : Int)) = n := by omega
    simp only [intChars, if_pos hneg, List.cons_append, parseIntTok, if_pos rfl,
      parseDigits_natChars _ _ ht]
    simp [he, abs_of_neg hneg]
  · simp only [intChars, if_neg hneg]
    obtain ⟨c, cs, hcs⟩ : ∃ c cs, natChars n.toNat = c :: cs := by
      cases h : natChars n.toNat with
      | nil => exact absurd h (natChars_ne_nil _)
      | cons c cs => exact ⟨c, cs, rfl⟩
    have hdig : isDig c = true := by
      have := natChars_isDig n.toNat c (by simp [hcs])
      exact this
    have hnotminus : ¬(c = '-') := by
      intro he; subst he; simp [isDig] at hdig
    rw [hcs]
    simp only [List.cons_append, parseIntTok, if_neg hnotminus]
    rw [← List.cons_append, ← hcs, parseDigits_natChars _ _ ht]
    have he : ((n.toNat : Int)) = n := by omega
    simp [he]

/-! # Supporting lemmas: whitespace and token dispatch -/

theorem skipWs_ws_append (ws t : List Char)
    (h : ∀ c ∈ ws, isJsonWs c = true) : skipWs (ws ++ t) = skipWs t := by
  induction ws with
  | nil => simp
  | cons c cs ih =>
    have hc : isJsonWs c = true := h c (by simp)
    simp only [List.cons_append, skipWs, if_pos hc]
    exact ih (fun x hx => h x (by simp [hx]))

theorem skipWs_cons_not_ws (c : Char) (cs : List Char)
    (h : isJsonWs c = false) : skipWs (c :: cs) = c :: cs := by
  simp [skipWs, h]

theorem spaces_ws (n : Nat) : ∀ c ∈ spaces n, isJsonWs c = true := by
  intro c hc
  simp only [spaces, List.mem_replicate] at hc
  rw [hc.2]; decide

theorem itemPre_ws (ind : Option Nat) (d : Nat) :
    ∀ c ∈ itemPre ind d, isJsonWs c = true := by
  intro c hc
  cases ind with
  | none => simp [itemPre] at hc
  | some n =>
    simp only [itemPre, List.mem_cons] at hc
    rcases hc with hc | hc
    · rw [hc]; decide
    · exact spaces_ws _ c hc

theorem closePre_ws (ind : Option Nat) (d : Nat) :
    ∀ c ∈ closePre ind d, isJsonWs c = true := by
  intro c hc
  cases ind with
  | none => simp [closePre] at hc
  | some n =>
    simp only [closePre, List.mem_cons] at hc
    rcases hc with hc | hc
    · rw [hc]; decide
    · exact spaces_ws _ c hc

theorem itemSep_shape (ind : Option Nat) (d : Nat) :
    ∃ ws, itemSep ind d = ',' :: ws ∧ ∀ c ∈ ws, isJsonWs c = true := by
  cases ind with
  | none =>
    refine ⟨[' '], rfl, ?_⟩
    intro c hc; simp at hc; rw [hc]; decide
  | some n =>
    refine ⟨'\n' :: spaces (n * d), rfl, ?_⟩
    intro c hc
    simp only [List.mem_cons] at hc
    rcases hc with hc | hc
    · rw [hc]; decide
    · exact spaces_ws _ c hc

/-- A digit or minus sign is none of the characters the value dispatch in
`parseVal` tests for, and no whitespace. -/
theorem numStart_dispatch (c : Char) (h : isDig c = true ∨ c = '-') :
    isJsonWs c = false ∧ c ≠ 'n' ∧ c ≠ 't' ∧ c ≠ 'f' ∧ c ≠ '"' ∧
      c ≠ '[' ∧ c ≠ '\x7b' ∧ c ≠ ']' := by
  rcases h with h | h
  · simp only [isDig, Bool.and_eq_true, decide_eq_true_eq] at h
    refine ⟨?_, ?_, ?_, ?_, ?_, ?_, ?_, ?_⟩
    · simp only [isJsonWs, Bool.or_eq_false_iff, decide_eq_false_iff_not]
      omega
    all_goals
      intro he
      rw [he] at h
      revert h
      decide
  · subst h; exact ⟨by decide, by decide, by decide, by decide, by decide,
      by decide, by decide, by decide⟩

/-- Every rendering starts with a non-whitespace character that is not a
closing bracket. -/
theorem renderHead (ind : Option Nat) (d : Nat) (v : Json) :
    ∃ c cs, render ind d v = c :: cs ∧ isJsonWs c = false ∧
      c ≠ ']' ∧ c ≠ '\x7d' := by
  cases v with
  | null =>
    refine ⟨'n', _, rfl, ?_, ?_, ?_⟩ <;> decide
  | bool b =>
    cases b with
    | true => refine ⟨'t', _, rfl, ?_, ?_, ?_⟩ <;> decide
    | false => refine ⟨'f', _, rfl, ?_, ?_, ?_⟩ <;> decide
  | int n =>
    by_cases hneg : n < 0
    · refine ⟨'-', natChars n.natAbs, ?_, by decide, by decide, by decide⟩
      simp [render, intChars, if_pos hneg]
    · obtain ⟨c, cs, hcs⟩ : ∃ c cs, natChars n.toNat = c :: cs := by
        cases h : natChars n.toNat with
        | nil => exact absurd h (natChars_ne_nil _)
        | cons c cs => exact ⟨c, cs, rfl⟩
      have hdig : isDig c = true := natChars_isDig n.toNat c (by simp [hcs])
      have hd := numStart_dispatch c (Or.inl hdig)
      refine ⟨c, cs, ?_, hd.1, hd.2.2.2.2.2.2.2, ?_⟩
      · simp [render, intChars, if_neg hneg, hcs]
      · intro he; rw [he] at hdig; revert hdig; decide
  | str s => refine ⟨'"', _, rfl, ?_, ?_, ?_⟩ <;> decide
  | arr xs =>
    cases xs with
    | nil => refine ⟨'[', _, rfl, ?_, ?_, ?_⟩ <;> decide
    | cons x xs => refine ⟨'[', _, rfl, ?_, ?_, ?_⟩ <;> decide
  | obj fs =>
    cases fs with
    | nil => refine ⟨'\x7b', _, rfl, ?_, ?_, ?_⟩ <;> decide
    | cons f fs =>
      obtain ⟨k, v⟩ := f
      refine ⟨'\x7b', _, rfl, ?_, ?_, ?_⟩ <;> decide

/-! # Supporting lemmas: string escaping round trip -/

theorem hexVal_digitChar : ∀ d, d < 16 → hexVal (Nat.digitChar d) = some d := by
  decide

theorem escString_cons (c : Char) (cs : List Char) :
    escString (c :: cs) = escChar c ++ escString cs := rfl

theorem parseStrBody_escString : ∀ (cs tail : List Char),
    parseStrBody (escString cs ++ '"' :: tail) = some (cs, tail) := by
  intro cs
  induction cs with
  | nil =>
    intro tail
    rw [show escString [] = [] from rfl, List.nil_append, parseStrBody.eq_def]
    simp
  | cons c cs ih =>
    intro tail
    rw [escString_cons, List.append_assoc]
    by_cases h1 : c = '"'
    · subst h1
      simp only [show escChar '"' = ['\\', '"'] from rfl, List.cons_append,
        List.nil_append]
      rw [parseStrBody.eq_def]
      simp +decide [escDecode, ih]
    · by_cases h2 : c = '\\'
      · subst h2
        simp only [show escChar '\\' = ['\\', '\\'] from rfl, List.cons_append,
          List.nil_append]
        rw [parseStrBody.eq_def]
        simp +decide [escDecode, ih]
      · by_cases h3 : c = '\n'
        · subst h3
          simp only [show escChar '\n' = ['\\', 'n'] from rfl, List.cons_append,
            List.nil_append]
          rw [parseStrBody.eq_def]
          simp +decide [escDecode, ih]
        · by_cases h4 : c = '\t'
          · subst h4
            simp only [show escChar '\t' = ['\\', 't'] from rfl, List.cons_append,
              List.nil_append]
            rw [parseStrBody.eq_def]
            simp +decide [escDecode, ih]
          · by_cases h5 : c = '\r'
            · subst h5
              simp only [show escChar '\r' = ['\\', 'r'] from rfl, List.cons_append,
                List.nil_append]
              rw [parseStrBody.eq_def]
              simp +decide [escDecode, ih]
            · by_cases h6 : c.toNat = 8
              · have hc : c = Char.ofNat 8 := by rw [← h6, Char.ofNat_toNat]
                have hesc : escChar c = ['\\', 'b'] := by
                  simp [escChar, h1, h2, h3, h4, h5, h6]
                rw [hesc]
                simp only [List.cons_append, List.nil_append]
                rw [parseStrBody.eq_def]
                simp +decide [escDecode, ih, hc]
              · by_cases h7 : c.toNat = 12
                · have hc : c = Char.ofNat 12 := by rw [← h7, Char.ofNat_toNat]
                  have hesc : escChar c = ['\\', 'f'] := by
                    simp [escChar, h1, h2, h3, h4, h5, h6, h7]
                  rw [hesc]
                  simp only [List.cons_append, List.nil_append]
                  rw [parseStrBody.eq_def]
                  simp +decide [escDecode, ih, hc]
                · by_cases h8 : c.toNat < 32
                  · have hesc : escChar c = ['\\', 'u', '0', '0',
                        Nat.digitChar (c.toNat / 16), Nat.digitChar (c.toNat % 16)] := by
                      simp [escChar, h1, h2, h3, h4, h5, h6, h7, h8]
                    rw [hesc]
                    simp only [List.cons_append, List.nil_append]
                    rw [parseStrBody.eq_def]
                    have hv3 : hexVal (Nat.digitChar (c.toNat / 16)) =
                        some (c.toNat / 16) := hexVal_digitChar _ (by omega)
                    have hv4 : hexVal (Nat.digitChar (c.toNat % 16)) =
                        some (c.toNat % 16) := hexVal_digitChar _ (by omega)
                    have harith : ((0 * 16 + 0) * 16 + c.toNat / 16) * 16 +
                        c.toNat % 16 = c.toNat := by omega
                    have harith2 : c.toNat / 16 * 16 + c.toNat % 16 = c.toNat := by
                      omega
                    simp +decide [hv3, hv4, ih, harith, harith2,
                      show hexVal '0' = some 0 from rfl, Char.ofNat_toNat]
                  · have hesc : escChar c = [c] := by
                      simp [escChar, h1, h2, h3, h4, h5, h6, h7, h8]
                    rw [hesc]
                    simp only [List.cons_append, List.nil_append]
                    rw [parseStrBody.eq_def]
                    simp only [if_neg h1, if_neg h2, if_neg h8, ih]
                    rfl

/-! # Supporting lemmas: the render/parse round trip -/

theorem wsNotDig (c : Char) (h : isJsonWs c = true) : isDig c = false := by
  simp only [isJsonWs, Bool.or_eq_true, decide_eq_true_eq] at h
  simp only [isDig, Bool.and_eq_false_iff, decide_eq_false_iff_not]
  omega

theorem notDigStart_append_ws (cl t : List Char)
    (h : ∀ c ∈ cl, isJsonWs c = true) (ht : notDigStart t) :
    notDigStart (cl ++ t) := by
  cases cl with
  | nil => simpa using ht
  | cons c cs =>
    simp only [List.cons_append, notDigStart]
    exact wsNotDig c (h c (by simp))

theorem parseItems_render (ind : Option Nat) (d : Nat) :
    ∀ (xs : List Json) (x : Json), (∀ y ∈ x :: xs, ParseOK y) →
    ∀ (fuel : Nat) (ws cl tail : List Char),
      needItems (x :: xs) ≤ fuel →
      (∀ c ∈ ws, isJsonWs c = true) → (∀ c ∈ cl, isJsonWs c = true) →
      parseItems fuel
        (ws ++ (render ind d x ++ (renderItems ind d xs ++ (cl ++ (']' :: tail)))))
        = some (x :: xs, tail) := by
  intro xs
  induction xs with
  | nil =>
    intro x hok fuel ws cl tail hfuel hws hcl
    cases fuel with
    | zero => simp [needItems] at hfuel
    | succ f =>
      have hx : needF x ≤ f := by
        simp only [needItems] at hfuel
        omega
      have hnd : notDigStart (cl ++ (']' :: tail)) :=
        notDigStart_append_ws cl _ hcl (by simp [notDigStart]; decide)
      simp only [parseItems]
      rw [show renderItems ind d [] = [] from by rw [renderItems], List.nil_append]
      rw [hok x (by simp) ind d f ws (cl ++ (']' :: tail)) hx hws hnd]
      simp only []
      rw [skipWs_ws_append cl _ hcl, skipWs_cons_not_ws _ _ (by decide)]
      simp +decide
  | cons y ys ih =>
    intro x hok fuel ws cl tail hfuel hws hcl
    cases fuel with
    | zero => simp [needItems] at hfuel
    | succ f =>
      have hx : needF x ≤ f := by
        simp only [needItems] at hfuel
        omega
      have hys : needItems (y :: ys) ≤ f := by
        simp only [needItems] at hfuel ⊢
        omega
      simp only [parseItems]
      rw [show renderItems ind d (y :: ys) =
        itemSep ind d ++ render ind d y ++ renderItems ind d ys from by
          rw [renderItems]]
      obtain ⟨ws2, hsep, hws2⟩ := itemSep_shape ind d
      rw [hsep]
      have harr : (((',' :: ws2) ++ render ind d y ++ renderItems ind d ys) ++
          (cl ++ (']' :: tail))) = ',' :: (ws2 ++ (render ind d y ++
            (renderItems ind d ys ++ (cl ++ (']' :: tail))))) := by
        simp [List.append_assoc]
      rw [harr]
      have hnd : notDigStart (',' :: (ws2 ++ (render ind d y ++
          (renderItems ind d ys ++ (cl ++ (']' :: tail)))))) := by
        simp [notDigStart]; decide
      rw [hok x (by simp) ind d f ws _ hx hws hnd]
      simp only []
      rw [skipWs_cons_not_ws _ _ (by decide)]
      simp only []
      simp only [if_true]
      have hrec := ih y (fun z hz => hok z (by simp at hz ⊢; tauto)) f ws2 cl tail
        hys hws2 hcl
      rw [hrec]
      rfl

theorem parseFields_render (ind : Option Nat) (d : Nat) :
    ∀ (fs : List (String × Json)) (k : String) (v : Json),
      (∀ kv ∈ (k, v) :: fs, ParseOK kv.2) →
    ∀ (fuel : Nat) (ws cl tail : List Char),
      needFields ((k, v) :: fs) ≤ fuel →
      (∀ c ∈ ws, isJsonWs c = true) → (∀ c ∈ cl, isJsonWs c = true) →
      parseFields fuel
        (ws ++ ('"' :: (escString k.data ++ ('"' :: (':' :: ' ' ::
          (render ind d v ++ (renderFields ind d fs ++ (cl ++ ('\x7d' :: tail)))))))))
        = some ((k, v) :: fs, tail) := by
  intro fs
  induction fs with
  | nil =>
    intro k v hok fuel ws cl tail hfuel hws hcl
    cases fuel with
    | zero => simp [needFields] at hfuel
    | succ f =>
      have hv : needF v ≤ f := by
        simp only [needFields] at hfuel
        omega
      simp only [parseFields]
      rw [skipWs_ws_append ws _ hws, skipWs_cons_not_ws _ _ (by decide)]
      simp only []
      simp only [if_true]
      rw [show (escString k.data ++ ('"' :: (':' :: ' ' ::
          (render ind d v ++ (renderFields ind d [] ++ (cl ++ ('\x7d' :: tail))))))) =
        (escString k.data ++ '"' :: (':' :: ' ' ::
          (render ind d v ++ (renderFields ind d [] ++ (cl ++ ('\x7d' :: tail)))))) from by
          simp]
      rw [parseStrBody_escString]
      simp only []
      rw [skipWs_cons_not_ws _ _ (by decide)]
      simp only []
      simp only [if_true]
      have hnd : notDigStart (renderFields ind d [] ++ (cl ++ ('\x7d' :: tail))) := by
        rw [show renderFields ind d [] = [] from by rw [renderFields], List.nil_append]
        exact notDigStart_append_ws cl _ hcl (by simp [notDigStart]; decide)
      have hpv := hok (k, v) (by simp) ind d f [' ']
        (renderFields ind d [] ++ (cl ++ ('\x7d' :: tail))) hv
        (by intro c hc; simp at hc; rw [hc]; decide) hnd
      rw [show (' ' :: (render ind d v ++ (renderFields ind d [] ++
          (cl ++ ('\x7d' :: tail))))) = [' '] ++ (render ind d v ++
          (renderFields ind d [] ++ (cl ++ ('\x7d' :: tail)))) from rfl]
      rw [hpv]
      simp only []
      rw [show renderFields ind d [] = [] from by rw [renderFields], List.nil_append,
        skipWs_ws_append cl _ hcl, skipWs_cons_not_ws _ _ (by decide)]
      simp +decide
  | cons kv2 fs2 ih =>
    intro k v hok fuel ws cl tail hfuel hws hcl
    obtain ⟨k2, v2⟩ := kv2
    cases fuel with
    | zero => simp [needFields] at hfuel
    | succ f =>
      have hv : needF v ≤ f := by
        simp only [needFields] at hfuel
        omega
      have hfs2 : needFields ((k2, v2) :: fs2) ≤ f := by
        simp only [needFields] at hfuel ⊢
        omega
      simp only [parseFields]
      rw [skipWs_ws_append ws _ hws, skipWs_cons_not_ws _ _ (by decide)]
      simp only []
      simp only [if_true]
      rw [show (escString k.data ++ ('"' :: (':' :: ' ' ::
          (render ind d v ++ (renderFields ind d ((k2, v2) :: fs2) ++
            (cl ++ ('\x7d' :: tail))))))) =
        (escString k.data ++ '"' :: (':' :: ' ' ::
          (render ind d v ++ (renderFields ind d ((k2, v2) :: fs2) ++
            (cl ++ ('\x7d' :: tail)))))) from by simp]
      rw [parseStrBody_escString]
      simp only []
      rw [skipWs_cons_not_ws _ _ (by decide)]
      simp only []
      simp only [if_true]
      obtain ⟨ws2, hsep, hws2⟩ := itemSep_shape ind d
      have hrfields : renderFields ind d ((k2, v2) :: fs2) ++ (cl ++ ('\x7d' :: tail)) =
          ',' :: (ws2 ++ ('"' :: (escString k2.data ++ ('"' :: (':' :: ' ' ::
            (render ind d v2 ++ (renderFields ind d fs2 ++
              (cl ++ ('\x7d' :: tail))))))))) := by
        rw [show renderFields ind d ((k2, v2) :: fs2) =
          itemSep ind d ++ renderStr k2 ++ ':' :: ' ' :: render ind d v2 ++
            renderFields ind d fs2 from by rw [renderFields], hsep]
        simp [renderStr, List.append_assoc]
      have hnd : notDigStart (renderFields ind d ((k2, v2) :: fs2) ++
          (cl ++ ('\x7d' :: tail))) := by
        rw [hrfields]
        simp [notDigStart]
        decide
      have hpv := hok (k, v) (by simp) ind d f [' ']
        (renderFields ind d ((k2, v2) :: fs2) ++ (cl ++ ('\x7d' :: tail))) hv
        (by intro c hc; simp at hc; rw [hc]; decide) hnd
      rw [show (' ' :: (render ind d v ++ (renderFields ind d ((k2, v2) :: fs2) ++
          (cl ++ ('\x7d' :: tail))))) = [' '] ++ (render ind d v ++
          (renderFields ind d ((k2, v2) :: fs2) ++ (cl ++ ('\x7d' :: tail)))) from rfl]
      rw [hpv]
      simp only []
      rw [hrfields, skipWs_cons_not_ws _ _ (by decide)]
      simp only []
      simp only [if_true]
      have hrec := ih k2 v2 (fun z hz => hok z (by simp at hz ⊢; tauto)) f ws2 cl tail
        hfs2 hws2 hcl
      rw [hrec]
      rfl

theorem intChars_head (n : Int) :
    ∃ c cs, intChars n = c :: cs ∧ (isDig c = true ∨ c = '-') := by
  by_cases hneg : n < 0
  · exact ⟨'-', natChars n.natAbs, by simp [intChars, if_pos hneg], Or.inr rfl⟩
  · obtain ⟨c, cs, hcs⟩ : ∃ c cs, natChars n.toNat = c :: cs := by
      cases h : natChars n.toNat with
      | nil => exact absurd h (natChars_ne_nil _)
      | cons c cs => exact ⟨c, cs, rfl⟩
    exact ⟨c, cs, by simp [intChars, if_neg hneg, hcs],
      Or.inl (natChars_isDig n.toNat c (by simp [hcs]))⟩

theorem one_le_needF : ∀ v : Json, 1 ≤ needF v := by
  intro v
  cases v with
  | arr xs => cases xs <;> simp [needF]
  | obj fs => cases fs with
    | nil => simp [needF]
    | cons f fs => obtain ⟨k, w⟩ := f; simp [needF]
  | null => simp [needF]
  | bool b => simp [needF]
  | int n => simp [needF]
  | str s => simp [needF]

theorem parseOK_null : ParseOK .null := by
  intro ind d fuel ws tail hfuel hws hnd
  cases fuel with
  | zero => simp [needF] at hfuel
  | succ f =>
    simp only [parseVal]
    rw [show render ind d .null = ['n', 'u', 'l', 'l'] from rfl]
    rw [show ((['n', 'u', 'l', 'l'] : List Char) ++ tail) =
      'n' :: 'u' :: 'l' :: 'l' :: tail from rfl]
    rw [skipWs_ws_append ws _ hws, skipWs_cons_not_ws _ _ (by decide)]
    simp +decide [expectLit]

theorem parseOK_bool (b : Bool) : ParseOK (.bool b) := by
  intro ind d fuel ws tail hfuel hws hnd
  cases fuel with
  | zero => simp [needF] at hfuel
  | succ f =>
    cases b with
    | true =>
      simp only [parseVal]
      rw [show render ind d (.bool true) = ['t', 'r', 'u', 'e'] from rfl]
      rw [show ((['t', 'r', 'u', 'e'] : List Char) ++ tail) =
        't' :: 'r' :: 'u' :: 'e' :: tail from rfl]
      rw [skipWs_ws_append ws _ hws, skipWs_cons_not_ws _ _ (by decide)]
      simp +decide [expectLit]
    | false =>
      simp only [parseVal]
      rw [show render ind d (.bool false) = ['f', 'a', 'l', 's', 'e'] from rfl]
      rw [show ((['f', 'a', 'l', 's', 'e'] : List Char) ++ tail) =
        'f' :: 'a' :: 'l' :: 's' :: 'e' :: tail from rfl]
      rw [skipWs_ws_append ws _ hws, skipWs_cons_not_ws _ _ (by decide)]
      simp +decide [expectLit]

theorem parseOK_int (n : Int) : ParseOK (.int n) := by
  intro ind d fuel ws tail hfuel hws hnd
  cases fuel with
  | zero => simp [needF] at hfuel
  | succ f =>
    simp only [parseVal]
    rw [show render ind d (.int n) = intChars n from rfl]
    obtain ⟨c, cs, hc, hkind⟩ := intChars_head n
    have hd := numStart_dispatch c hkind
    rw [hc, List.cons_append, skipWs_ws_append ws _ hws,
      skipWs_cons_not_ws _ _ hd.1]
    simp only []
    rw [if_neg hd.2.1, if_neg hd.2.2.1, if_neg hd.2.2.2.1, if_neg hd.2.2.2.2.1,
      if_neg hd.2.2.2.2.2.1, if_neg hd.2.2.2.2.2.2.1]
    rw [← List.cons_append, ← hc]
    exact parseIntTok_intChars n tail hnd

theorem parseOK_str (s : String) : ParseOK (.str s) := by
  intro ind d fuel ws tail hfuel hws hnd
  cases fuel with
  | zero => simp [needF] at hfuel
  | succ f =>
    simp only [parseVal]
    rw [show render ind d (.str s) = '"' :: (escString s.data ++ ['"']) from rfl]
    rw [List.cons_append, skipWs_ws_append ws _ hws,
      skipWs_cons_not_ws _ _ (by decide)]
    simp only []
    simp only [if_neg (by decide : ¬('"' : Char) = 'n'),
      if_neg (by decide : ¬('"' : Char) = 't'),
      if_neg (by decide : ¬('"' : Char) = 'f'), eq_self_iff_true, if_true]
    rw [show (escString s.data ++ ['"']) ++ tail =
      escString s.data ++ '"' :: tail from by simp]
    rw [parseStrBody_escString]
    rfl

theorem parseOK_arr (xs : List Json) (hmem : ∀ x ∈ xs, ParseOK x) :
    ParseOK (.arr xs) := by
  intro ind d fuel ws tail hfuel hws hnd
  cases fuel with
  | zero => exact absurd hfuel (by have := one_le_needF (Json.arr xs); omega)
  | succ f =>
    cases xs with
    | nil =>
      simp only [parseVal]
      rw [show render ind d (.arr []) = ['[', ']'] from by rw [render]]
      rw [show ((['[', ']'] : List Char) ++ tail) = '[' :: ']' :: tail from rfl]
      rw [skipWs_ws_append ws _ hws, skipWs_cons_not_ws _ _ (by decide)]
      simp only []
      simp only [if_neg (by decide : ¬('[' : Char) = 'n'),
        if_neg (by decide : ¬('[' : Char) = 't'),
        if_neg (by decide : ¬('[' : Char) = 'f'),
        if_neg (by decide : ¬('[' : Char) = '"'), eq_self_iff_true, if_true]
      rw [skipWs_cons_not_ws _ _ (by decide)]
      simp
    | cons x xs2 =>
      have hni : needItems (x :: xs2) ≤ f := by
        have : needF (Json.arr (x :: xs2)) = 1 + needItems (x :: xs2) := by
          rw [needF]
        omega
      simp only [parseVal]
      rw [show render ind d (.arr (x :: xs2)) =
        '[' :: (itemPre ind (d + 1) ++ render ind (d + 1) x ++
          renderItems ind (d + 1) xs2 ++ closePre ind d ++ [']']) from by
            rw [render]]
      rw [List.cons_append, skipWs_ws_append ws _ hws,
        skipWs_cons_not_ws _ _ (by decide)]
      simp only []
      simp only [if_neg (by decide : ¬('[' : Char) = 'n'),
        if_neg (by decide : ¬('[' : Char) = 't'),
        if_neg (by decide : ¬('[' : Char) = 'f'),
        if_neg (by decide : ¬('[' : Char) = '"'), eq_self_iff_true, if_true]
      have hassoc : (itemPre ind (d + 1) ++ render ind (d + 1) x ++
          renderItems ind (d + 1) xs2 ++ closePre ind d ++ [']']) ++ tail =
        itemPre ind (d + 1) ++ (render ind (d + 1) x ++
          (renderItems ind (d + 1) xs2 ++ (closePre ind d ++ (']' :: tail)))) := by
        simp [List.append_assoc]
      rw [hassoc]
      obtain ⟨c, cs, hcx, hcw, hne1, hne2⟩ := renderHead ind (d + 1) x
      have hskip2 : skipWs (itemPre ind (d + 1) ++ (render ind (d + 1) x ++
          (renderItems ind (d + 1) xs2 ++ (closePre ind d ++ (']' :: tail))))) =
          render ind (d + 1) x ++
            (renderItems ind (d + 1) xs2 ++ (closePre ind d ++ (']' :: tail))) := by
        rw [skipWs_ws_append _ _ (itemPre_ws _ _), hcx, List.cons_append,
          skipWs_cons_not_ws _ _ hcw, ← List.cons_append, ← hcx]
      rw [hskip2]
      rw [if_neg (by rw [hcx]; simp [hne1])]
      rw [parseItems_render ind (d + 1) xs2 x hmem f (itemPre ind (d + 1))
        (closePre ind d) tail hni (itemPre_ws _ _) (closePre_ws _ _)]
      rfl

theorem parseOK_obj (fs : List (String × Json)) (hmem : ∀ kv ∈ fs, ParseOK kv.2) :
    ParseOK (.obj fs) := by
  intro ind d fuel ws tail hfuel hws hnd
  cases fuel with
  | zero => exact absurd hfuel (by have := one_le_needF (Json.obj fs); omega)
  | succ f =>
    cases fs with
    | nil =>
      simp only [parseVal]
      rw [show render ind d (.obj []) = ['\x7b', '\x7d'] from by rw [render]]
      rw [show ((['\x7b', '\x7d'] : List Char) ++ tail) =
        '\x7b' :: '\x7d' :: tail from rfl]
      rw [skipWs_ws_append ws _ hws, skipWs_cons_not_ws _ _ (by decide)]
      simp only []
      simp only [if_neg (by decide : ¬('\x7b' : Char) = 'n'),
        if_neg (by decide : ¬('\x7b' : Char) = 't'),
        if_neg (by decide : ¬('\x7b' : Char) = 'f'),
        if_neg (by decide : ¬('\x7b' : Char) = '"'),
        if_neg (by decide : ¬('\x7b' : Char) = '['), eq_self_iff_true, if_true]
      rw [skipWs_cons_not_ws _ _ (by decide)]
      simp
    | cons kv fs2 =>
      obtain ⟨k, v⟩ := kv
      have hnf : needFields ((k, v) :: fs2) ≤ f := by
        have : needF (Json.obj ((k, v) :: fs2)) = 1 + needFields ((k, v) :: fs2) := by
          rw [needF]
        omega
      simp only [parseVal]
      rw [show render ind d (.obj ((k, v) :: fs2)) =
        '\x7b' :: (itemPre ind (d + 1) ++ renderStr k ++ ':' :: ' ' ::
          render ind (d + 1) v ++ renderFields ind (d + 1) fs2 ++
            closePre ind d ++ ['\x7d']) from by rw [render]]
      rw [List.cons_append, skipWs_ws_append ws _ hws,
        skipWs_cons_not_ws _ _ (by decide)]
      simp only []
      simp only [if_neg (by decide : ¬('\x7b' : Char) = 'n'),
        if_neg (by decide : ¬('\x7b' : Char) = 't'),
        if_neg (by decide : ¬('\x7b' : Char) = 'f'),
        if_neg (by decide : ¬('\x7b' : Char) = '"'),
        if_neg (by decide : ¬('\x7b' : Char) = '['), eq_self_iff_true, if_true]
      have hassoc : (itemPre ind (d + 1) ++ renderStr k ++ ':' :: ' ' ::
          render ind (d + 1) v ++ renderFields ind (d + 1) fs2 ++
            closePre ind d ++ ['\x7d']) ++ tail =
        itemPre ind (d + 1) ++ ('"' :: (escString k.data ++ ('"' :: (':' :: ' ' ::
          (render ind (d + 1) v ++ (renderFields ind (d + 1) fs2 ++
            (closePre ind d ++ ('\x7d' :: tail)))))))) := by
        simp [renderStr, List.append_assoc]
      rw [hassoc]
      have hskip2 : skipWs (itemPre ind (d + 1) ++ ('"' :: (escString k.data ++
          ('"' :: (':' :: ' ' :: (render ind (d + 1) v ++
            (renderFields ind (d + 1) fs2 ++
              (closePre ind d ++ ('\x7d' :: tail))))))))) =
          '"' :: (escString k.data ++ ('"' :: (':' :: ' ' ::
            (render ind (d + 1) v ++ (renderFields ind (d + 1) fs2 ++
              (closePre ind d ++ ('\x7d' :: tail))))))) := by
        rw [skipWs_ws_append _ _ (itemPre_ws _ _),
          skipWs_cons_not_ws _ _ (by decide)]
      rw [hskip2]
      rw [if_neg (by simp)]
      rw [parseFields_render ind (d + 1) fs2 k v hmem f (itemPre ind (d + 1))
        (closePre ind d) tail hnf (itemPre_ws _ _) (closePre_ws _ _)]
      rfl

/-- The JSON writer/reader round trip: parsing a rendering of any value,
for any indentation choice, gives the value back. -/
theorem parse_render : ∀ v : Json, ParseOK v :=
  Json.indOn ParseOK parseOK_null parseOK_bool parseOK_int parseOK_str
    parseOK_arr parseOK_obj

theorem itemSep_len_ge (ind : Option Nat) (d : Nat) :
    1 ≤ (itemSep ind d).length := by
  cases ind <;> simp [itemSep, spaces]

theorem renderStr_len_ge (k : String) : 2 ≤ (renderStr k).length := by
  simp [renderStr]

theorem needItems_le (ind : Option Nat) (d : Nat) :
    ∀ (ys : List Json) (x : Json),
      (∀ y ∈ x :: ys, ∀ (i2 : Option Nat) (d2 : Nat),
        needF y ≤ (render i2 d2 y).length) →
      needItems (x :: ys) ≤
        (render ind d x).length + (renderItems ind d ys).length + 1 := by
  intro ys
  induction ys with
  | nil =>
    intro x h
    have h1 := h x (by simp) ind d
    rw [show needItems [x] = 1 + max (needF x) 0 from by rw [needItems, needItems]]
    omega
  | cons y ys ih =>
    intro x h
    have h1 := h x (by simp) ind d
    have h2 := ih y (fun z hz => h z (by simp at hz ⊢; tauto))
    have h3 := itemSep_len_ge ind d
    rw [show needItems (x :: y :: ys) =
      1 + max (needF x) (needItems (y :: ys)) from by rw [needItems]]
    rw [show renderItems ind d (y :: ys) =
      itemSep ind d ++ render ind d y ++ renderItems ind d ys from by
        rw [renderItems]]
    simp only [List.length_append]
    omega

theorem needFields_le (ind : Option Nat) (d : Nat) :
    ∀ (fs : List (String × Json)) (k : String) (v : Json),
      (∀ kv ∈ (k, v) :: fs, ∀ (i2 : Option Nat) (d2 : Nat),
        needF kv.2 ≤ (render i2 d2 kv.2).length) →
      needFields ((k, v) :: fs) ≤
        (render ind d v).length + (renderFields ind d fs).length + 1 := by
  intro fs
  induction fs with
  | nil =>
    intro k v h
    have h1 : needF v ≤ (render ind d v).length := h (k, v) (by simp) ind d
    rw [show needFields [(k, v)] = 1 + max (needF v) 0 from by
      rw [needFields, needFields]]
    omega
  | cons kv2 fs2 ih =>
    intro k v h
    obtain ⟨k2, v2⟩ := kv2
    have h1 : needF v ≤ (render ind d v).length := h (k, v) (by simp) ind d
    have h2 := ih k2 v2 (fun z hz => h z (by simp at hz ⊢; tauto))
    have h3 := itemSep_len_ge ind d
    have h4 := renderStr_len_ge k2
    rw [show needFields ((k, v) :: (k2, v2) :: fs2) =
      1 + max (needF v) (needFields ((k2, v2) :: fs2)) from by rw [needFields]]
    rw [show renderFields ind d ((k2, v2) :: fs2) =
      itemSep ind d ++ renderStr k2 ++ ':' :: ' ' :: render ind d v2 ++
        renderFields ind d fs2 from by rw [renderFields]]
    simp only [List.length_append, List.length_cons]
    omega

theorem needF_le_len : ∀ (v : Json) (ind : Option Nat) (d : Nat),
    needF v ≤ (render ind d v).length := by
  refine Json.indOn (fun v => ∀ (ind : Option Nat) (d : Nat),
    needF v ≤ (render ind d v).length) ?_ ?_ ?_ ?_ ?_ ?_
  · intro ind d
    rw [show render ind d .null = ['n', 'u', 'l', 'l'] from rfl]
    rw [show needF .null = 1 from by rw [needF]]
    simp
  · intro b ind d
    cases b <;>
      simp [show needF (Json.bool true) = 1 from by rw [needF],
        show needF (Json.bool false) = 1 from by rw [needF],
        show render ind d (Json.bool true) = ['t', 'r', 'u', 'e'] from rfl,
        show render ind d (Json.bool false) = ['f', 'a', 'l', 's', 'e'] from rfl]
  · intro n ind d
    rw [show render ind d (.int n) = intChars n from rfl]
    rw [show needF (.int n) = 1 from by rw [needF]]
    obtain ⟨c, cs, hc, _⟩ := intChars_head n
    rw [hc]
    simp
  · intro s ind d
    rw [show render ind d (.str s) = renderStr s from rfl]
    rw [show needF (.str s) = 1 from by rw [needF]]
    have := renderStr_len_ge s
    omega
  · intro xs hmem ind d
    cases xs with
    | nil =>
      rw [show render ind d (.arr []) = ['[', ']'] from by rw [render]]
      rw [show needF (.arr []) = 1 from by rw [needF]]
      simp
    | cons x xs2 =>
      have hi := needItems_le ind (d + 1) xs2 x hmem
      rw [show needF (.arr (x :: xs2)) = 1 + needItems (x :: xs2) from by
        rw [needF]]
      rw [show render ind d (.arr (x :: xs2)) =
        '[' :: (itemPre ind (d + 1) ++ render ind (d + 1) x ++
          renderItems ind (d + 1) xs2 ++ closePre ind d ++ [']']) from by
            rw [render]]
      simp only [List.length_cons, List.length_append]
      omega
  · intro fs hmem ind d
    cases fs with
    | nil =>
      rw [show render ind d (.obj []) = ['\x7b', '\x7d'] from by rw [render]]
      rw [show needF (.obj []) = 1 from by rw [needF]]
      simp
    | cons kv fs2 =>
      obtain ⟨k, v⟩ := kv
      have hi := needFields_le ind (d + 1) fs2 k v hmem
      have h4 := renderStr_len_ge k
      rw [show needF (.obj ((k, v) :: fs2)) = 1 + needFields ((k, v) :: fs2)
        from by rw [needF]]
      rw [show render ind d (.obj ((k, v) :: fs2)) =
        '\x7b' :: (itemPre ind (d + 1) ++ renderStr k ++ ':' :: ' ' ::
          render ind (d + 1) v ++ renderFields ind (d + 1) fs2 ++
            closePre ind d ++ ['\x7d']) from by rw [render]]
      simp only [List.length_cons, List.length_append]
      omega

/-- `json.load` applied to a file just written by `json.dump` returns the
dumped document, for either indentation setting. -/
theorem load_render (ind : Option Nat) (v : Json) :
    load ⟨render ind 0 v⟩ = some v := by
  have h := parse_render v ind 0 ((render ind 0 v).length + 1) [] []
    (by have := needF_le_len v ind 0; omega) (by simp) (by simp [notDigStart])
  simp only [List.nil_append, List.append_nil] at h
  simp only [load]
  rw [h]
  simp [skipWs]

/-! # Claim theorems -/

/-- C10: `get_bot_commands` is total over role strings and never returns
an empty list: every result begins with the `start` command
`("start", "Запустить бота")` and contains a `help` command, and any role
other than `student`, `parent`, `admin` gets exactly the two commands
`start` and `help`. -/
theorem C10_get_bot_commands_total :
    ∀ role : String,
      (get_bot_commands role).head? = some ("start", "Запустить бота") ∧
      (∃ d, ("help", d) ∈ get_bot_commands role) ∧
      (role ≠ "student" → role ≠ "parent" → role ≠ "admin" →
        get_bot_commands role =
          [("start", "Запустить бота"), ("help", "Показать справка")]) := by
  intro role
  unfold get_bot_commands
  by_cases h1 : role = "student"
  · refine ⟨by simp [h1], ⟨"Показать справку", by simp [h1]⟩, fun hc _ _ => absurd h1 hc⟩
  · by_cases h2 : role = "parent"
    · refine ⟨by simp [h1, h2], ⟨"Показать справку", by simp [h1, h2]⟩,
        fun _ hc _ => absurd h2 hc⟩
    · by_cases h3 : role = "admin"
      · refine ⟨by simp [h1, h2, h3], ⟨"Показать справку", by simp [h1, h2, h3]⟩,
          fun _ _ hc => absurd h3 hc⟩
      · refine ⟨by simp [h1, h2, h3], ⟨"Показать справка", by simp [h1, h2, h3]⟩,
          fun _ _ _ => by simp [h1, h2, h3]⟩

/-- Witness for C10 at the concrete unknown role `"guest"`. -/
theorem C10_witness :
    get_bot_commands "guest" =
      [("start", "Запустить бота"), ("help", "Показать справка")] :=
  (C10_get_bot_commands_total "guest").2.2 (by decide) (by decide) (by decide)

/-- C9: a document whose `questions` list is empty is rejected by
`_basic_validation` with the empty-list error, and
`import_json_to_database` (with the basic validator) returns failure for
it, for every option combination and fault schedule, even though the
present fields are well-formed. -/
theorem C9_empty_questions_rejected :
    basic_validation
        [("topic", .obj [("id", .int 1), ("name", .str "Тема")]),
         ("questions", .arr [])] =
      some (false, [msgEmptyQuestions]) ∧
    ∀ (u c : Bool) (fault : Option Nat),
      (runImport true
        [("topic", .obj [("id", .int 1), ("name", .str "Тема")]),
         ("questions", .arr [])] u c (freshSt fault)).1.1 = false := by
  refine ⟨by decide, ?_⟩
  intro u c fault
  rfl

/-- Counterexample to C2: `is_question_valid` accepts a question whose
`correct_answer` contains the out-of-range index 5 against only two
options, so acceptance does not ensure valid indices. -/
theorem C2_counterexample :
    is_question_valid
        [("text", .str "Вопрос?"), ("options", .arr [.str "а", .str "б"]),
         ("correct_answer", .arr [.int 5]),
         ("question_type", .str "single")] = some true ∧
    correctAnswersValid
        [("text", .str "Вопрос?"), ("options", .arr [.str "а", .str "б"]),
         ("correct_answer", .arr [.int 5]),
         ("question_type", .str "single")] = false := by
  decide

/-- C2 as amended: the per-question validity check only guarantees shape,
not index validity: acceptance by `is_question_valid` means exactly that
the stripped text is non-empty, `options` has length at least 2, and
`correct_answer` is truthy; no constraint relates the `correct_answer`
entries to the `options` range. -/
theorem C2_amended :
    ∀ qf : List (String × Json),
      is_question_valid qf = some true →
      (∃ s, jget qf "text" (.str "") = .str s ∧ (pyStrip s).isEmpty = false) ∧
      (∃ n, pyLen (jget qf "options" (.arr [])) = some n ∧ 2 ≤ n) ∧
      jTruthy (jget qf "correct_answer" .null) = true := by
  intro qf h
  unfold is_question_valid at h
  split at h
  next t heq =>
    by_cases hs : (pyStrip t).isEmpty
    · rw [if_pos hs] at h; simp at h
    · rw [if_neg hs] at h
      split at h
      next hl => simp at h
      next n hl =>
        by_cases hn : n < 2
        · rw [if_pos hn] at h; simp at h
        · rw [if_neg hn] at h
          exact ⟨⟨t, heq, by simpa using hs⟩, ⟨n, hl, by omega⟩, by simpa using h⟩
  next x heq => simp at h

/-- Witness for C2's amended statement at a concrete accepted question. -/
theorem C2_witness :
    (∃ s, jget [("text", .str "Вопрос?"), ("options", .arr [.str "а", .str "б"]),
        ("correct_answer", .arr [.int 0]), ("question_type", .str "single")]
        "text" (.str "") = .str s ∧ (pyStrip s).isEmpty = false) ∧
    (∃ n, pyLen (jget [("text", .str "Вопрос?"),
        ("options", .arr [.str "а", .str "б"]),
        ("correct_answer", .arr [.int 0]), ("question_type", .str "single")]
        "options" (.arr [])) = some n ∧ 2 ≤ n) ∧
    jTruthy (jget [("text", .str "Вопрос?"), ("options", .arr [.str "а", .str "б"]),
        ("correct_answer", .arr [.int 0]), ("question_type", .str "single")]
        "correct_answer" .null) = true :=
  C2_amended _ (by decide)

theorem str_append_right_inj (p : String) {a b : String}
    (h : p ++ a = p ++ b) : a = b := by
  have hd : (p ++ a).data = (p ++ b).data := congrArg String.data h
  have hd2 : p.data ++ a.data = p.data ++ b.data := hd
  have := List.append_cancel_left hd2
  cases a; cases b
  exact congrArg String.mk this

theorem questionMsg_ne (i : Nat) {a b : String} (hne : a ≠ b) :
    ("Вопрос " ++ (natStr (i + 1) ++ a)) ≠ ("Вопрос " ++ (natStr (i + 1) ++ b)) := by
  intro h
  exact hne (str_append_right_inj _ (str_append_right_inj _ h))

theorem hasKeyB_of_jget_ne (qf : List (String × Json)) (k : String)
    (dflt : Json) (h : jget qf k dflt ≠ dflt) : hasKeyB qf k = true := by
  by_cases hk : hasKeyB qf k
  · exact hk
  · exfalso
    apply h
    unfold jget objLookup
    rw [List.find?_eq_none.mpr]
    · rfl
    · intro x hx
      unfold hasKeyB at hk
      simp only [List.any_eq_true, not_exists, not_and] at hk
      simpa using hk x hx

/-- The error block `_basic_validation` builds for one dict question whose
`text` is a string and whose `options` is a list. -/
theorem questionErrors_char (i : Nat) (qf : List (String × Json)) (t : String)
    (opts : List Json) (ht : jget qf "text" (.str "") = .str t)
    (ho : jget qf "options" .null = .arr opts) :
    questionErrors i (.obj qf) = some (
      (if (pyStrip t).isEmpty then [msgNoText i] else []) ++
      ((if opts.isEmpty then [msgNoOptions i]
        else if opts.length < 2 then [msgMinTwo i] else []) ++
      ((if hasKeyB qf "correct_answer" then [] else [msgNoCorrect i]) ++
      (if jget qf "question_type" .null = .str "single" ∨
          jget qf "question_type" .null = .str "multiple" ∨
          jget qf "question_type" .null = .str "sequence" then []
        else [msgBadType i])))) := by
  have hk : hasKeyB qf "options" = true :=
    hasKeyB_of_jget_ne qf "options" .null (by rw [ho]; intro hc; cases hc)
  simp only [questionErrors]
  rw [ht, ho, hk]
  cases opts with
  | nil =>
    simp only [jTruthy, List.isEmpty_nil, Bool.not_true, Bool.not_false,
      Bool.or_true, if_true, List.isEmpty_nil]
    simp [Option.bind]
    by_cases hc : hasKeyB qf "correct_answer" <;> simp [hc]
  | cons o os =>
    simp only [jTruthy, List.isEmpty_cons, Bool.not_true, Bool.not_false,
      Bool.or_false, if_false, pyLen]
    simp [Option.bind]
    by_cases hc : hasKeyB qf "correct_answer" <;> simp [hc]

/-- C3: every validation path rejects a question whose options list has
fewer than 2 entries, and none rejects on that ground with at least 2:
`_basic_validation` emits an option-count error exactly then,
`is_question_valid` returns false (and true when the other shape checks
pass), and `save_question_changes` refuses the change (and never with the
minimum-two-options message when the count is at least 2). -/
theorem C3_min_two_options :
    (∀ (i : Nat) (qf : List (String × Json)) (t : String) (opts : List Json),
      jget qf "text" (.str "") = .str t →
      jget qf "options" .null = .arr opts →
      opts.length < 2 →
      ∃ errs, questionErrors i (.obj qf) = some errs ∧
        (msgNoOptions i ∈ errs ∨ msgMinTwo i ∈ errs)) ∧
    (∀ (i : Nat) (qf : List (String × Json)) (t : String) (opts : List Json),
      jget qf "text" (.str "") = .str t →
      jget qf "options" .null = .arr opts →
      2 ≤ opts.length →
      ∀ errs, questionErrors i (.obj qf) = some errs →
      msgNoOptions i ∉ errs ∧ msgMinTwo i ∉ errs) ∧
    (∀ (qf : List (String × Json)) (t : String) (opts : List Json),
      jget qf "text" (.str "") = .str t →
      jget qf "options" (.arr []) = .arr opts →
      opts.length < 2 →
      is_question_valid qf = some false) ∧
    (∀ (qf : List (String × Json)) (t : String) (opts : List Json),
      jget qf "text" (.str "") = .str t → (pyStrip t).isEmpty = false →
      jget qf "options" (.arr []) = .arr opts → 2 ≤ opts.length →
      jTruthy (jget qf "correct_answer" .null) = true →
      is_question_valid qf = some true) ∧
    (∀ (qs : List Json) (idx : Int) (f : QuestionForm),
      (get_options f.optionEntries).length < 2 →
      ∃ e, save_question_changes qs idx f = .error e) ∧
    (∀ (qs : List Json) (idx : Int) (f : QuestionForm),
      2 ≤ (get_options f.optionEntries).length →
      save_question_changes qs idx f ≠ .error msgNeedTwoOptions) := by
  refine ⟨?_, ?_, ?_, ?_, ?_, ?_⟩
  · intro i qf t opts ht ho hlen
    rw [questionErrors_char i qf t opts ht ho]
    refine ⟨_, rfl, ?_⟩
    cases opts with
    | nil => simp
    | cons o os =>
      right
      simp only [List.mem_append]
      exact Or.inr (Or.inl (by simpa using hlen))
  · intro i qf t opts ht ho hlen errs herrs
    rw [questionErrors_char i qf t opts ht ho] at herrs
    have hne : opts.isEmpty = false := by
      cases opts with
      | nil => simp at hlen
      | cons o os => simp
    rw [Option.some_inj] at herrs
    subst herrs
    have hnlt : ¬opts.length < 2 := by omega
    have hoErr : (if opts.isEmpty then [msgNoOptions i]
        else if opts.length < 2 then [msgMinTwo i] else []) = [] := by
      simp [hne, hnlt]
    constructor
    · have h1 : msgNoOptions i ∉ (if (pyStrip t).isEmpty then [msgNoText i] else []) := by
        by_cases hcond : (pyStrip t).isEmpty
        · simp only [if_pos hcond, List.mem_singleton]
          intro hc
          exact @questionMsg_ne i ": отсутствуют варианты ответов"
            ": отсутствует или пустой текст" (by decide)
            (by simpa [msgNoOptions, msgNoText, String.append_assoc] using hc)
        · simp [if_neg hcond]
      have h2 : msgNoOptions i ∉ (if hasKeyB qf "correct_answer" then []
          else [msgNoCorrect i]) := by
        by_cases hcond : hasKeyB qf "correct_answer"
        · simp [if_pos hcond]
        · simp only [if_neg hcond, List.mem_singleton]
          intro hc
          exact @questionMsg_ne i ": отсутствуют варианты ответов"
            ": отсутствует правильный ответ" (by decide)
            (by simpa [msgNoOptions, msgNoCorrect, String.append_assoc] using hc)
      have h3 : msgNoOptions i ∉ (if jget qf "question_type" Json.null = .str "single" ∨
          jget qf "question_type" Json.null = .str "multiple" ∨
          jget qf "question_type" Json.null = .str "sequence" then []
          else [msgBadType i]) := by
        by_cases hcond : jget qf "question_type" Json.null = Json.str "single" ∨
          jget qf "question_type" Json.null = Json.str "multiple" ∨
          jget qf "question_type" Json.null = Json.str "sequence"
        · simp [if_pos hcond]
        · simp only [if_neg hcond, List.mem_singleton]
          intro hc
          exact @questionMsg_ne i ": отсутствуют варианты ответов"
            ": неверный тип вопроса" (by decide)
            (by simpa [msgNoOptions, msgBadType, String.append_assoc] using hc)
      intro hmem
      rw [hoErr] at hmem
      simp only [List.mem_append, List.nil_append] at hmem
      rcases hmem with h | h | h
      · exact h1 h
      · exact h2 h
      · exact h3 h
    · have h1 : msgMinTwo i ∉ (if (pyStrip t).isEmpty then [msgNoText i] else []) := by
        by_cases hcond : (pyStrip t).isEmpty
        · simp only [if_pos hcond, List.mem_singleton]
          intro hc
          exact @questionMsg_ne i ": должно быть минимум 2 варианта ответа"
            ": отсутствует или пустой текст" (by decide)
            (by simpa [msgMinTwo, msgNoText, String.append_assoc] using hc)
        · simp [if_neg hcond]
      have h2 : msgMinTwo i ∉ (if hasKeyB qf "correct_answer" then []
          else [msgNoCorrect i]) := by
        by_cases hcond : hasKeyB qf "correct_answer"
        · simp [if_pos hcond]
        · simp only [if_neg hcond, List.mem_singleton]
          intro hc
          exact @questionMsg_ne i ": должно быть минимум 2 варианта ответа"
            ": отсутствует правильный ответ" (by decide)
            (by simpa [msgMinTwo, msgNoCorrect, String.append_assoc] using hc)
      have h3 : msgMinTwo i ∉ (if jget qf "question_type" Json.null = .str "single" ∨
          jget qf "question_type" Json.null = .str "multiple" ∨
          jget qf "question_type" Json.null = .str "sequence" then []
          else [msgBadType i]) := by
        by_cases hcond : jget qf "question_type" Json.null = Json.str "single" ∨
          jget qf "question_type" Json.null = Json.str "multiple" ∨
          jget qf "question_type" Json.null = Json.str "sequence"
        · simp [if_pos hcond]
        · simp only [if_neg hcond, List.mem_singleton]
          intro hc
          exact @questionMsg_ne i ": должно быть минимум 2 варианта ответа"
            ": неверный тип вопроса" (by decide)
            (by simpa [msgMinTwo, msgBadType, String.append_assoc] using hc)
      intro hmem
      rw [hoErr] at hmem
      simp only [List.mem_append, List.nil_append] at hmem
      rcases hmem with h | h | h
      · exact h1 h
      · exact h2 h
      · exact h3 h
  · intro qf t opts ht ho hlen
    have hred : is_question_valid qf =
        (if (pyStrip t).isEmpty then some false
         else match pyLen (jget qf "options" (Json.arr [])) with
           | none => none
           | some n => if n < 2 then some false
             else some (jTruthy (jget qf "correct_answer" Json.null))) := by
      unfold is_question_valid
      rw [ht]
    rw [hred]
    by_cases hs : (pyStrip t).isEmpty
    · rw [if_pos hs]
    · rw [if_neg hs, ho]
      simp only [pyLen]
      rw [if_pos hlen]
  · intro qf t opts ht hs ho hlen htr
    have hred : is_question_valid qf =
        (if (pyStrip t).isEmpty then some false
         else match pyLen (jget qf "options" (Json.arr [])) with
           | none => none
           | some n => if n < 2 then some false
             else some (jTruthy (jget qf "correct_answer" Json.null))) := by
      unfold is_question_valid
      rw [ht]
    rw [hred, if_neg (by simp [hs]), ho]
    simp only [pyLen]
    rw [if_neg (by omega), htr]
  · intro qs idx f hlt
    unfold save_question_changes
    by_cases h0 : idx < 0
    · rw [if_pos h0]; exact ⟨_, rfl⟩
    · rw [if_neg h0]
      by_cases h1 : idx.toNat < qs.length
      · rw [dif_pos h1]
        cases hold : qs.get ⟨idx.toNat, h1⟩ with
        | obj oldF =>
          simp only []
          split_ifs with h2 h3 h4 h5 <;> try exact ⟨_, rfl⟩
          exact absurd hlt (by push_neg at h3; omega)
        | null => exact ⟨_, rfl⟩
        | bool b => exact ⟨_, rfl⟩
        | int n => exact ⟨_, rfl⟩
        | str s => exact ⟨_, rfl⟩
        | arr xs => exact ⟨_, rfl⟩
      · rw [dif_neg h1]; exact ⟨_, rfl⟩
  · intro qs idx f hge
    unfold save_question_changes
    by_cases h0 : idx < 0
    · rw [if_pos h0]; intro hc; exact absurd (Except.error.inj hc) (by decide)
    · rw [if_neg h0]
      by_cases h1 : idx.toNat < qs.length
      · rw [dif_pos h1]
        cases hold : qs.get ⟨idx.toNat, h1⟩ with
        | obj oldF =>
          simp only []
          split_ifs with h2 h3 h4 h5 <;>
            first
            | (intro hc; exact absurd (Except.error.inj hc) (by decide))
            | (exfalso; rcases h3 with h3 | h3
               · simp [List.isEmpty_iff] at h3
                 rw [h3] at hge
                 simp at hge
               · omega)
            | (intro hc; cases hc)
        | null => intro hc; exact absurd (Except.error.inj hc) (by decide)
        | bool b => intro hc; exact absurd (Except.error.inj hc) (by decide)
        | int n => intro hc; exact absurd (Except.error.inj hc) (by decide)
        | str s => intro hc; exact absurd (Except.error.inj hc) (by decide)
        | arr xs => intro hc; exact absurd (Except.error.inj hc) (by decide)
      · rw [dif_neg h1]; intro hc; exact absurd (Except.error.inj hc) (by decide)

/-- Witness for C3 at a one-option question: the basic validator reports
a minimum-two-options error for it. -/
theorem C3_min_two_options_witness :
    ∃ errs, questionErrors 0
        (.obj [("text", .str "Q"), ("options", .arr [.str "a"])]) = some errs ∧
      (msgNoOptions 0 ∈ errs ∨ msgMinTwo 0 ∈ errs) :=
  C3_min_two_options.1 0 [("text", .str "Q"), ("options", .arr [.str "a"])]
    "Q" [.str "a"] (by decide) (by decide) (by decide)

/-- C4 counterexample: `EnhancedQuizEditorApp.open_file` performs no
`topic`/`questions` key check at all.  On the file content `{}` (a JSON
document with neither key) it replaces the in-memory document, the path
and the index instead of leaving them unchanged, and it does not report
the missing-keys error. -/
theorem C4_counterexample :
    (enhOpenFile initState "f.json" "\x7b\x7d").1.data = .obj [] ∧
    initState.data ≠ .obj [] ∧
    (enhOpenFile initState "f.json" "\x7b\x7d").1.current_file_path =
      some "f.json" ∧
    (enhOpenFile initState "f.json" "\x7b\x7d").2 ≠ .fieldsErr := by
  refine ⟨?_, by decide, ?_, ?_⟩ <;> decide

/-- C4 (amended): `QuizEditorApp.open_file` behaves as claimed — an
unparsable file, or one whose document lacks `topic` or `questions`,
leaves the state unchanged and reports an error, while a document with
both keys replaces it — but `EnhancedQuizEditorApp.open_file` replaces
the document for every successfully parsed file, with no key check. -/
theorem C4_open_file_key_check :
    (∀ (st : EditorState) (path content : String),
      load content = none → quizOpenFile st path content = (st, .parseErr)) ∧
    (∀ (st : EditorState) (path content : String) (d : Json) (ht hq : Bool),
      load content = some d → pyContains "topic" d = some ht →
      pyContains "questions" d = some hq → (ht = false ∨ hq = false) →
      quizOpenFile st path content = (st, .fieldsErr)) ∧
    (∀ (st : EditorState) (path content : String) (d : Json),
      load content = some d → pyContains "topic" d = some true →
      pyContains "questions" d = some true →
      quizOpenFile st path content =
        ({ data := d, current_file_path := some path,
           current_question_index := -1 }, .okOpened (quizUiErr d))) ∧
    (∀ (st : EditorState) (path content : String) (d : Json),
      load content = some d →
      enhOpenFile st path content =
        ({ data := d, current_file_path := some path,
           current_question_index := -1 }, .okOpened (enhUiErr d))) := by
  refine ⟨?_, ?_, ?_, ?_⟩
  · intro st path content hload
    simp [quizOpenFile, hload]
  · intro st path content d ht hq hload hht hhq hor
    simp only [quizOpenFile, hload, hht, hhq]
    rcases hor with h | h <;> subst h <;> simp
  · intro st path content d hload hht hhq
    simp [quizOpenFile, hload, hht, hhq]
  · intro st path content d hload
    simp [enhOpenFile, hload]

/-- Witness for C4 at the content `{}`: the plain editor refuses it and
keeps its state. -/
theorem C4_open_file_key_check_witness :
    quizOpenFile initState "f.json" "\x7b\x7d" = (initState, .fieldsErr) :=
  C4_open_file_key_check.2.1 initState "f.json" "\x7b\x7d" (.obj []) false false
    (by decide) (by decide) (by decide) (Or.inl rfl)

/-- C1: saving a document and loading the written file restores the very
same document, hence the same question list, in both editors (for any
document with the `topic` and `questions` keys, which the plain editor
requires before accepting the file). -/
theorem C1_save_load_round_trip :
    ∀ (st : EditorState) (path : String) (fs : List (String × Json)),
      hasKeyB fs "topic" = true → hasKeyB fs "questions" = true →
      (quizOpenFile st path (quizSaveContent (.obj fs))).1.data = .obj fs ∧
      (quizOpenFile st path (quizSaveContent (.obj fs))).2 =
        .okOpened (quizUiErr (.obj fs)) ∧
      (enhOpenFile st path (enhSaveContent (.obj fs))).1.data = .obj fs := by
  intro st path fs ht hq
  have hload : load (quizSaveContent (.obj fs)) = some (.obj fs) :=
    load_render (some 2) (.obj fs)
  have hload2 : load (enhSaveContent (.obj fs)) = some (.obj fs) :=
    load_render (some 2) (.obj fs)
  have hct : pyContains "topic" (.obj fs) = some true := by
    simpa [pyContains, hasKeyB] using ht
  have hcq : pyContains "questions" (.obj fs) = some true := by
    simpa [pyContains, hasKeyB] using hq
  refine ⟨?_, ?_, ?_⟩
  · simp [quizOpenFile, hload, hct, hcq]
  · simp [quizOpenFile, hload, hct, hcq]
  · simp [enhOpenFile, hload2]

/-- Witness for C1 at a concrete two-key document. -/
theorem C1_save_load_round_trip_witness :
    (quizOpenFile initState "t.json" (quizSaveContent (.obj
      [("topic", .obj [("name", .str "T")]),
       ("questions", .arr [])]))).1.data =
      .obj [("topic", .obj [("name", .str "T")]), ("questions", .arr [])] ∧
    (quizOpenFile initState "t.json" (quizSaveContent (.obj
      [("topic", .obj [("name", .str "T")]),
       ("questions", .arr [])]))).2 =
      .okOpened (quizUiErr (.obj [("topic", .obj [("name", .str "T")]),
        ("questions", .arr [])])) ∧
    (enhOpenFile initState "t.json" (enhSaveContent (.obj
      [("topic", .obj [("name", .str "T")]),
       ("questions", .arr [])]))).1.data =
      .obj [("topic", .obj [("name", .str "T")]), ("questions", .arr [])] :=
  C1_save_load_round_trip initState "t.json"
    [("topic", .obj [("name", .str "T")]), ("questions", .arr [])]
    (by decide) (by decide)

/-! ## No newline appears in minified output (for C5) -/

theorem escChar_no_newline (c : Char) : Char.ofNat 10 ∉ escChar c := by
  have hd : ∀ d, d < 16 → Char.ofNat 10 ≠ Nat.digitChar d := by decide
  unfold escChar
  split_ifs with h1 h2 h3 h4 h5 h6 h7 h8
  · decide
  · decide
  · decide
  · decide
  · decide
  · decide
  · decide
  · simp only [List.mem_cons, List.not_mem_nil, or_false, not_or]
    exact ⟨by decide, by decide, by decide, by decide,
      hd _ (by omega), hd _ (by omega)⟩
  · simp only [List.mem_singleton]
    intro h
    exact h3 (by rw [← h])

theorem escString_no_newline (cs : List Char) : Char.ofNat 10 ∉ escString cs := by
  induction cs with
  | nil => simp [escString]
  | cons c cs ih =>
    unfold escString at *
    simp only [List.foldr_cons, List.mem_append]
    rintro (h | h)
    · exact escChar_no_newline c h
    · exact ih h

theorem renderStr_no_newline (s : String) : Char.ofNat 10 ∉ renderStr s := by
  unfold renderStr
  simp only [List.mem_cons, List.mem_append, List.mem_singleton, not_or]
  exact ⟨by decide, escString_no_newline s.data, by decide⟩

theorem intChars_no_newline (n : Int) : Char.ofNat 10 ∉ intChars n := by
  unfold intChars
  split_ifs with h
  · simp only [List.mem_cons, not_or]
    refine ⟨by decide, fun hc => ?_⟩
    exact absurd (natChars_isDig _ _ hc) (by decide)
  · intro hc
    exact absurd (natChars_isDig _ _ hc) (by decide)

theorem renderItems_min_no_newline (ys : List Json)
    (h : ∀ y ∈ ys, ∀ d, Char.ofNat 10 ∉ render none d y) :
    ∀ d, Char.ofNat 10 ∉ renderItems none d ys := by
  induction ys with
  | nil => intro d; simp [renderItems]
  | cons y ys ih =>
    intro d
    simp only [renderItems, itemSep, List.append_assoc, List.cons_append,
      List.nil_append, List.mem_cons, List.mem_append, not_or]
    exact ⟨by decide, by decide, h y (by simp) d,
      ih (fun z hz d2 => h z (by simp [hz]) d2) d⟩

theorem renderFields_min_no_newline (fs : List (String × Json))
    (h : ∀ kv ∈ fs, ∀ d, Char.ofNat 10 ∉ render none d kv.2) :
    ∀ d, Char.ofNat 10 ∉ renderFields none d fs := by
  induction fs with
  | nil => intro d; simp [renderFields]
  | cons kv fs ih =>
    obtain ⟨k, v⟩ := kv
    intro d
    simp only [renderFields, itemSep, List.append_assoc, List.cons_append,
      List.nil_append, List.mem_cons, List.mem_append, not_or]
    exact ⟨by decide, by decide, renderStr_no_newline k, by decide, by decide,
      h (k, v) (by simp) d, ih (fun z hz d2 => h z (by simp [hz]) d2) d⟩

theorem render_min_no_newline :
    ∀ v : Json, ∀ d, Char.ofNat 10 ∉ render none d v := by
  refine Json.indOn (fun v => ∀ d, Char.ofNat 10 ∉ render none d v)
    ?_ ?_ ?_ ?_ ?_ ?_
  · intro d; simp [render]
  · intro b d; cases b <;> simp [render]
  · intro n d; exact intChars_no_newline n
  · intro s d; exact renderStr_no_newline s
  · intro xs ih d
    cases xs with
    | nil => simp [render]
    | cons x xs =>
      simp only [render, itemPre, closePre, List.append_assoc,
        List.cons_append, List.nil_append, List.append_nil, List.mem_cons,
        List.mem_append, List.mem_singleton, not_or]
      exact ⟨by decide, ih x (by simp) _,
        renderItems_min_no_newline xs (fun y hy d2 => ih y (by simp [hy]) d2) _,
        by decide⟩
  · intro fs ih d
    cases fs with
    | nil => simp [render]
    | cons kv fs =>
      obtain ⟨k, v⟩ := kv
      simp only [render, itemPre, closePre, List.append_assoc,
        List.cons_append, List.nil_append, List.append_nil, List.mem_cons,
        List.mem_append, List.mem_singleton, not_or]
      exact ⟨by decide, renderStr_no_newline k, by decide, by decide,
        ih (k, v) (by simp) _,
        renderFields_min_no_newline fs (fun y hy d2 => ih y (by simp [hy]) d2) _,
        by decide⟩

/-- C5 counterexample: with the minify option checked, `export_to_json`
writes the document on a single line — no newline character at all — not
with human-readable indentation, and its output differs from the
indented form. -/
theorem C5_counterexample :
    Char.ofNat 10 ∉ (exportContent (.obj [("topic", .obj [("name", .str "T")]),
      ("questions", .arr [.int 1])]) true).data ∧
    exportContent (.obj [("topic", .obj [("name", .str "T")]),
      ("questions", .arr [.int 1])]) true ≠
      exportContent (.obj [("topic", .obj [("name", .str "T")]),
        ("questions", .arr [.int 1])]) false := by
  constructor
  · decide
  · decide

/-- C5 (amended): every file written for a document is valid JSON that
parses back to the document (both editors and the exporter, for both
export options, preserving the `topic`/`questions` structure); the
non-minified export equals the save format, which is multi-line (contains
a newline) for every non-empty document object; but the minified export
never contains a newline, so "human-readable indentation" fails exactly
for the minify option. -/
theorem C5_written_format :
    (∀ d : Json, load (quizSaveContent d) = some d ∧
      load (enhSaveContent d) = some d ∧
      ∀ m : Bool, load (exportContent d m) = some d) ∧
    (∀ d : Json, exportContent d false = quizSaveContent d ∧
      enhSaveContent d = quizSaveContent d) ∧
    (∀ (f : String × Json) (fs : List (String × Json)),
      Char.ofNat 10 ∈ (quizSaveContent (.obj (f :: fs))).data) ∧
    (∀ d : Json, Char.ofNat 10 ∉ (exportContent d true).data) := by
  refine ⟨?_, ?_, ?_, ?_⟩
  · intro d
    refine ⟨load_render (some 2) d, load_render (some 2) d, ?_⟩
    intro m
    cases m
    · exact load_render (some 2) d
    · exact load_render none d
  · intro d
    exact ⟨rfl, rfl⟩
  · intro f fs
    obtain ⟨k, v⟩ := f
    have h10 : Char.ofNat 10 = '\n' := rfl
    rw [h10]
    simp [quizSaveContent, render, itemPre, spaces]
  · intro d
    exact render_min_no_newline d 0

/-! ## Running the import monad -/

theorem bind_run {α β : Type} (m : M α) (k : α → M β) (st : ImportSt) :
    (m >>= k) st = match m st with
      | .ok a s => k a s
      | .err e s => .err e s := rfl

theorem pure_run {α : Type} (a : α) (st : ImportSt) :
    (pure a : M α) st = .ok a st := rfl

/-- `try/except` whose handler only builds a value never lets an
exception escape. -/
theorem catchM_total {α : Type} (m : M α) (f : String → α) (st : ImportSt) :
    ∃ r s2, catchM m (fun e => pure (f e)) st = .ok r s2 := by
  unfold catchM
  cases m st with
  | ok a s => exact ⟨a, s, rfl⟩
  | err e s => exact ⟨f e, s, rfl⟩

/-- C6 counterexample: a database exception in the middle of the import
(here the per-question insert raises) is caught per question and skipped,
so `import_json_to_database` still returns success — not `(False, ...)`
as the claim has it for "any exception during the import". -/
theorem C6_counterexample :
    (runImport true sampleDoc false false (freshSt (some 2))).2.faulted = true ∧
    (runImport true sampleDoc false false (freshSt (some 2))).1.1 = true :=
  ⟨rfl, rfl⟩

/-- C6 (amended): `import_json_to_database` never raises — every call
returns a `(success, message)` pair — and it returns `False` with the
documented message when the database is unavailable, when validation
fails, and when the topic already exists without the update option; but
an exception inside a single question's import is caught by
`_import_single_question` (which also never raises) and the surrounding
loop continues, so such exceptions do not force a `False` result. -/
theorem C6_import_errors :
    (∀ (dbAvail u c : Bool) (doc : List (String × Json)) (st : ImportSt),
      ∃ r s2, import_json_to_database dbAvail doc u c st = .ok r s2) ∧
    (∀ (u c : Bool) (doc : List (String × Json)) (st : ImportSt),
      runImport false doc u c st = ((false, "База данных недоступна"), st)) ∧
    (∀ (u c : Bool) (doc : List (String × Json)) (st : ImportSt)
       (errs : List String),
      basic_validation doc = some (false, errs) →
      runImport true doc u c st =
        ((false, "Ошибки валидации: " ++ String.intercalate "; " errs), st)) ∧
    (∀ (c : Bool) (doc : List (String × Json)) (st : ImportSt)
       (tf : List (String × Json)) (ex : TopicRow) (msgs : List String),
      basic_validation doc = some (true, msgs) →
      jget doc "topic" (.obj []) = .obj tf →
      jTruthy (jget tf "id" .null) = true →
      st.faultAt = none →
      st.topics.find? (fun t => Json.int (t.id : Int) == jget tf "id" .null) =
        some ex →
      runImport true doc false c st =
        ((false, "Тема с ID " ++ pyStrJ (jget tf "id" .null) ++
          " уже существует. Включите опцию обновления."),
         { st with opCount := st.opCount + 1,
                   ops := st.ops ++ [.queryTopic] })) ∧
    (∀ (tid : Nat) (qd : Json) (u c : Bool) (st : ImportSt),
      ∃ r s2, import_single_question tid qd u c st = .ok r s2) := by
  refine ⟨?_, ?_, ?_, ?_, ?_⟩
  · intro dbAvail u c doc st
    cases dbAvail
    · exact ⟨(false, "База данных недоступна"), st, rfl⟩
    · exact catchM_total _ (fun e => (false, "Ошибка импорта: " ++ e)) st
  · intro u c doc st
    rfl
  · intro u c doc st errs h
    unfold runImport import_json_to_database
    rw [h]
    rfl
  · intro c doc st tf ex msgs hval htopic htr hfa hfind
    unfold runImport import_json_to_database
    rw [hval, htopic]
    simp only [catchM, bind_run, pure_run, dbGet, htr, hfa, hfind, if_true,
      Bool.not_true, Bool.false_eq_true, if_false, reduceCtorEq, ite_false,
      ite_true]
  · intro tid qd u c st
    exact catchM_total _ (fun _ => (false, "error")) st

/-- Witness for C6 at a document whose `questions` section is missing:
the import reports the validation failure. -/
theorem C6_import_errors_witness :
    runImport true [("topic", .obj [("name", .str "Т")])] false false
        (freshSt none) =
      ((false, "Ошибки валидации: " ++ String.intercalate "; " [msgNoQuestions]),
       freshSt none) :=
  C6_import_errors.2.2.1 false false [("topic", .obj [("name", .str "Т")])]
    (freshSt none) [msgNoQuestions] (by decide)

/-! ## Commit-trace lemmas (for the transaction claim) -/

theorem noCommit_pure {α : Type} (a : α) : NoCommit (pure a : M α) :=
  fun st => ⟨[], by simp [pure_run, MRes.state], by simp⟩

theorem noCommit_throwM {α : Type} (e : String) : NoCommit (throwM e : M α) :=
  fun st => ⟨[], by simp [throwM, MRes.state], by simp⟩

theorem noCommit_bind {α β : Type} {m : M α} {k : α → M β}
    (hm : NoCommit m) (hk : ∀ a, NoCommit (k a)) : NoCommit (m >>= k) := by
  intro st
  rw [bind_run]
  obtain ⟨ex1, hex1, hnc1⟩ := hm st
  cases hm2 : m st with
  | ok a s1 =>
    obtain ⟨ex2, hex2, hnc2⟩ := hk a s1
    refine ⟨ex1 ++ ex2, ?_, ?_⟩
    · rw [hex2]
      rw [hm2] at hex1
      simp only [MRes.state] at hex1
      rw [hex1, List.append_assoc]
    · simp only [List.mem_append, not_or]
      exact ⟨hnc1, hnc2⟩
  | err e s1 =>
    rw [hm2] at hex1
    simp only [MRes.state] at hex1
    exact ⟨ex1, by simpa [MRes.state] using hex1, hnc1⟩

theorem noCommit_catchM {α : Type} {m : M α} {h : String → M α}
    (hm : NoCommit m) (hh : ∀ e, NoCommit (h e)) : NoCommit (catchM m h) := by
  intro st
  unfold catchM
  obtain ⟨ex1, hex1, hnc1⟩ := hm st
  cases hm2 : m st with
  | ok a s1 =>
    rw [hm2] at hex1
    exact ⟨ex1, by simpa [MRes.state] using hex1, hnc1⟩
  | err e s1 =>
    rw [hm2] at hex1
    simp only [MRes.state] at hex1
    obtain ⟨ex2, hex2, hnc2⟩ := hh e s1
    refine ⟨ex1 ++ ex2, ?_, ?_⟩
    · rw [hex2, hex1, List.append_assoc]
    · simp only [List.mem_append, not_or]
      exact ⟨hnc1, hnc2⟩

theorem noCommit_dbStep (op : DbOp) (hop : op ≠ .commit)
    (f : ImportSt → ImportSt) : NoCommit (dbStep op f) := by
  intro st
  unfold dbStep
  split_ifs with h
  · exact ⟨[], by simp [MRes.state], by simp⟩
  · refine ⟨[op], by simp [MRes.state], by simpa using fun hc => hop hc.symm⟩

theorem noCommit_dbGet {α : Type} (op : DbOp) (hop : op ≠ .commit)
    (g : ImportSt → α) : NoCommit (dbGet op g) := by
  intro st
  unfold dbGet
  split_ifs with h
  · exact ⟨[], by simp [MRes.state], by simp⟩
  · refine ⟨[op], by simp [MRes.state], by simpa using fun hc => hop hc.symm⟩

theorem noCommit_recO (op : DbOp) (hop : op ≠ .commit)
    (f : ImportSt → ImportSt) : NoCommit (recOp op f) := by
  intro st
  unfold recOp
  refine ⟨[op], by simp [MRes.state], by simpa using fun hc => hop hc.symm⟩

theorem noCommit_getS : NoCommit getS :=
  fun st => ⟨[], by simp [getS, MRes.state], by simp⟩

theorem noCommit_modifyS (f : ImportSt → ImportSt)
    (hf : ∀ s, (f s).ops = s.ops) : NoCommit (modifyS f) :=
  fun st => ⟨[], by simp [modifyS, MRes.state, hf], by simp⟩

theorem noCommit_jIndexM (fs : List (String × Json)) (k : String) :
    NoCommit (jIndexM fs k) := by
  unfold jIndexM
  cases objLookup fs k with
  | some v => exact noCommit_pure v
  | none => exact noCommit_throwM _

theorem noCommit_import_single_question (tid : Nat) (qd : Json) (u c : Bool) :
    NoCommit (import_single_question tid qd u c) := by
  unfold import_single_question
  refine noCommit_catchM ?_ (fun e => noCommit_pure _)
  repeat
    first
    | exact noCommit_pure _
    | exact noCommit_throwM _
    | exact noCommit_getS
    | exact noCommit_modifyS _ (fun s => rfl)
    | exact noCommit_jIndexM _ _
    | exact noCommit_dbGet _ (by decide) _
    | exact noCommit_dbStep _ (by decide) _
    | exact noCommit_recO _ (by decide) _
    | refine noCommit_bind ?_ fun a => ?_
    | split
    | dsimp only []

theorem noCommit_importLoop (tid : Nat) (u c : Bool) :
    ∀ (qds : List Json) (ni nu : Nat), NoCommit (importLoop tid u c qds ni nu) := by
  intro qds
  induction qds with
  | nil => intro ni nu; exact noCommit_pure _
  | cons qd rest ih =>
    intro ni nu
    unfold importLoop
    refine noCommit_bind
      (noCommit_catchM (noCommit_import_single_question _ _ _ _)
        (fun e => noCommit_pure _)) fun r => ?_
    exact ih _ _

theorem commitSpec_pure_false (msg : String) :
    CommitSpec (pure (false, msg) : M (Bool × String)) := by
  intro st
  constructor
  · intro r s2 hrun
    rw [pure_run] at hrun
    cases hrun
    exact ⟨(fun h => nomatch h), fun _ => ⟨[], by simp, by simp⟩⟩
  · intro e s2 hrun
    rw [pure_run] at hrun
    cases hrun

theorem commitSpec_throwM (e : String) :
    CommitSpec (throwM e : M (Bool × String)) := by
  intro st
  constructor
  · intro r s2 hrun
    cases hrun
  · intro e2 s2 hrun
    cases hrun
    exact ⟨[], by simp, by simp⟩

theorem commitSpec_bind {α : Type} {m : M α} {k : α → M (Bool × String)}
    (hm : NoCommit m) (hk : ∀ a, CommitSpec (k a)) : CommitSpec (m >>= k) := by
  intro st
  obtain ⟨ex1, hex1, hnc1⟩ := hm st
  constructor
  · intro r s2 hrun
    rw [bind_run] at hrun
    cases hm2 : m st with
    | ok a s1 =>
      rw [hm2] at hrun hex1
      simp only [MRes.state] at hex1
      constructor
      · intro htrue
        obtain ⟨pre, hpre, hncp⟩ := ((hk a s1).1 r s2 hrun).1 htrue
        refine ⟨ex1 ++ pre, ?_, ?_⟩
        · rw [hpre, hex1]
          simp [List.append_assoc]
        · simp only [List.mem_append, not_or]
          exact ⟨hnc1, hncp⟩
      · intro hfalse
        obtain ⟨ex2, hex2, hnc2⟩ := ((hk a s1).1 r s2 hrun).2 hfalse
        refine ⟨ex1 ++ ex2, ?_, ?_⟩
        · rw [hex2, hex1, List.append_assoc]
        · simp only [List.mem_append, not_or]
          exact ⟨hnc1, hnc2⟩
    | err e s1 =>
      rw [hm2] at hrun
      cases hrun
  · intro e s2 hrun
    rw [bind_run] at hrun
    cases hm2 : m st with
    | ok a s1 =>
      rw [hm2] at hrun hex1
      simp only [MRes.state] at hex1
      obtain ⟨ex2, hex2, hnc2⟩ := (hk a s1).2 e s2 hrun
      refine ⟨ex1 ++ ex2, ?_, ?_⟩
      · rw [hex2, hex1, List.append_assoc]
      · simp only [List.mem_append, not_or]
        exact ⟨hnc1, hnc2⟩
    | err e1 s1 =>
      rw [hm2] at hrun hex1
      simp only [MRes.state] at hex1
      cases hrun
      exact ⟨ex1, hex1, hnc1⟩

theorem commitSpec_catchM {m : M (Bool × String)} (hm : CommitSpec m)
    (g : String → String) :
    CommitSpec (catchM m (fun e => pure (false, g e))) := by
  intro st
  constructor
  · intro r s2 hrun
    unfold catchM at hrun
    split at hrun
    next a s1 heq =>
      cases hrun
      exact (hm st).1 _ _ heq
    next e1 s1 heq =>
      cases hrun
      obtain ⟨ex, hex, hnc⟩ := (hm st).2 _ _ heq
      exact ⟨(fun h => nomatch h), fun _ => ⟨ex, hex, hnc⟩⟩
  · intro e s2 hrun
    unfold catchM at hrun
    split at hrun
    next a s1 heq => cases hrun
    next e1 s1 heq => cases hrun

theorem commitSpec_importTail (doc : List (String × Json)) (u c : Bool)
    (tid : Nat) (nm : Json) : CommitSpec (importTail doc u c tid nm) := by
  intro st
  cases hl : importLoop tid u c (match jget doc "questions" (Json.arr []) with
      | Json.arr l => l
      | _ => []) 0 0 st with
  | ok p s1 =>
    obtain ⟨ex1, hex1, hnc1⟩ := noCommit_importLoop tid u c _ 0 0 st
    rw [hl] at hex1
    simp only [MRes.state] at hex1
    by_cases hf : s1.faultAt = some s1.opCount
    · have himp : importTail doc u c tid nm st =
          .err "db" { s1 with opCount := s1.opCount + 1, faulted := true } := by
        unfold importTail
        rw [bind_run, hl]
        dsimp only []
        rw [bind_run]
        rw [show dbStep DbOp.commit (fun s => s) s1 = .err "db"
            { s1 with opCount := s1.opCount + 1, faulted := true } from by
          unfold dbStep
          rw [if_pos hf]]
      constructor
      · intro r s2 hrun
        rw [himp] at hrun
        cases hrun
      · intro e s2 hrun
        rw [himp] at hrun
        cases hrun
        exact ⟨ex1, hex1, hnc1⟩
    · have himp : ∃ msg, importTail doc u c tid nm st =
          .ok (true, msg) { s1 with opCount := s1.opCount + 1, ops := s1.ops ++ [DbOp.commit] } := by
        refine ⟨"Тема \x27" ++ pyStrJ nm ++ "\x27: " ++
          (if p.1 > 0 then "создано " ++ natStr p.1 ++ " вопросов" else "") ++
          (if p.2 > 0 then ", обновлено " ++ natStr p.2 ++ " вопросов" else ""), ?_⟩
        unfold importTail
        rw [bind_run, hl]
        dsimp only []
        rw [bind_run]
        rw [show dbStep DbOp.commit (fun s => s) s1 = .ok ()
            { s1 with opCount := s1.opCount + 1, ops := s1.ops ++ [DbOp.commit] } from by
          unfold dbStep
          rw [if_neg hf]]
        rfl
      obtain ⟨msg, himp⟩ := himp
      constructor
      · intro r s2 hrun
        rw [himp] at hrun
        injection hrun with h1 h2
        subst h2
        subst h1
        refine ⟨fun _ => ⟨ex1, ?_, hnc1⟩, (fun h => nomatch h)⟩
        show s1.ops ++ [DbOp.commit] = st.ops ++ ex1 ++ [DbOp.commit]
        simp [hex1, List.append_assoc]
      · intro e s2 hrun
        rw [himp] at hrun
        cases hrun
  | err e1 s1 =>
    obtain ⟨ex1, hex1, hnc1⟩ := noCommit_importLoop tid u c _ 0 0 st
    rw [hl] at hex1
    simp only [MRes.state] at hex1
    have himp : importTail doc u c tid nm st = .err e1 s1 := by
      unfold importTail
      rw [bind_run, hl]
    constructor
    · intro r s2 hrun
      rw [himp] at hrun
      cases hrun
    · intro e s2 hrun
      rw [himp] at hrun
      cases hrun
      exact ⟨ex1, hex1, hnc1⟩

theorem commitSpec_import (dbAvail u c : Bool) (doc : List (String × Json)) :
    CommitSpec (import_json_to_database dbAvail doc u c) := by
  unfold import_json_to_database
  cases dbAvail with
  | false => exact commitSpec_pure_false _
  | true =>
    refine commitSpec_catchM ?_ (fun e => "Ошибка импорта: " ++ e)
    cases hv : basic_validation doc with
    | none => exact commitSpec_throwM _
    | some vr =>
      obtain ⟨vok, errs⟩ := vr
      cases vok with
      | false => exact commitSpec_pure_false _
      | true =>
        dsimp only []
        repeat
          first
          | exact commitSpec_pure_false _
          | exact commitSpec_throwM _
          | exact commitSpec_importTail _ _ _ _ _
          | refine commitSpec_bind ?_ fun a => ?_
          | exact noCommit_pure _
          | exact noCommit_throwM _
          | exact noCommit_getS
          | exact noCommit_modifyS _ (fun s => rfl)
          | exact noCommit_jIndexM _ _
          | exact noCommit_dbGet _ (by decide) _
          | exact noCommit_dbStep _ (by decide) _
          | exact noCommit_recO _ (by decide) _
          | refine noCommit_bind ?_ fun a => ?_
          | split
          | dsimp only []

/-- C7: starting from a session with an empty call trace, a successful
`import_json_to_database` run leaves a trace of per-record CRUD calls
ending in exactly one `session.commit()` (one commit in total, and it is
the last call); every returning failure path leaves a trace with no
commit at all, and so does every raise. -/
theorem C7_single_commit :
    ∀ (dbAvail u c : Bool) (doc : List (String × Json)) (st : ImportSt),
      st.ops = [] →
      (∀ (r : Bool × String) (s2 : ImportSt),
        import_json_to_database dbAvail doc u c st = .ok r s2 →
        (r.1 = true → s2.ops.count DbOp.commit = 1 ∧
          s2.ops.getLast? = some DbOp.commit) ∧
        (r.1 = false → s2.ops.count DbOp.commit = 0)) ∧
      (∀ (e : String) (s2 : ImportSt),
        import_json_to_database dbAvail doc u c st = .err e s2 →
        s2.ops.count DbOp.commit = 0) := by
  intro dbAvail u c doc st hops
  constructor
  · intro r s2 hrun
    have h := ((commitSpec_import dbAvail u c doc) st).1 r s2 hrun
    constructor
    · intro htrue
      obtain ⟨pre, hpre, hnc⟩ := h.1 htrue
      rw [hpre, hops]
      constructor
      · simp [List.count_append, List.count_eq_zero.mpr hnc]
      · simp [List.getLast?_concat]
    · intro hfalse
      obtain ⟨ex, hex, hnc⟩ := h.2 hfalse
      rw [hex, hops]
      simp [List.count_eq_zero.mpr hnc]
  · intro e s2 hrun
    obtain ⟨ex, hex, hnc⟩ := ((commitSpec_import dbAvail u c doc) st).2 e s2 hrun
    rw [hex, hops]
    simp [List.count_eq_zero.mpr hnc]

/-- Witness for C7 on the sample document in a fault-free fresh session. -/
theorem C7_single_commit_witness :
    ((runImport true sampleDoc false false (freshSt none)).1.1 = true →
      (runImport true sampleDoc false false (freshSt none)).2.ops.count
        DbOp.commit = 1 ∧
      (runImport true sampleDoc false false (freshSt none)).2.ops.getLast? =
        some DbOp.commit) ∧
    ((runImport true sampleDoc false false (freshSt none)).1.1 = false →
      (runImport true sampleDoc false false (freshSt none)).2.ops.count
        DbOp.commit = 0) :=
  (C7_single_commit true false false sampleDoc (freshSt none) rfl).1
    (runImport true sampleDoc false false (freshSt none)).1
    (runImport true sampleDoc false false (freshSt none)).2
    rfl

/-! ## `_copy_media_file` never overwrites (for C8) -/

theorem str_data_append (x y : String) : (x ++ y).data = x.data ++ y.data := rfl

theorem contains_iff_mem_str (l : List String) (s : String) :
    l.contains s = true ↔ s ∈ l := by
  simp

theorem pyStem_append_pySuffix (p : String) :
    pyStem p ++ pySuffix p = pyName p := by
  unfold pyStem pySuffix pyStemSuffix
  dsimp only []
  cases hidx : (pyName p).data.reverse.findIdx? (fun c => c = '.') with
  | none =>
    show String.mk ((pyName p).data ++ ([] : List Char)) = pyName p
    rw [List.append_nil]
  | some j =>
    dsimp only []
    split_ifs with hcond
    · show String.mk ((pyName p).data.take _ ++ (pyName p).data.drop _) = pyName p
      rw [List.take_append_drop]
    · show String.mk ((pyName p).data ++ ([] : List Char)) = pyName p
      rw [List.append_nil]

theorem candName_inj (p : String) : ∀ a b : Nat, candName p a = candName p b → a = b := by
  have hne : ∀ k : Nat, (natStr k).data ≠ [] := fun k => natChars_ne_nil k
  intro a b h
  match a, b with
  | 0, 0 => rfl
  | 0, j + 1 =>
    exfalso
    have h2 : pyStem p ++ pySuffix p =
        pyStem p ++ "_" ++ natStr (j + 1) ++ pySuffix p := by
      rw [pyStem_append_pySuffix]
      exact h
    have h3 := congrArg (fun s : String => s.data.length) h2
    simp only [str_data_append, List.length_append] at h3
    have h4 : 0 < (natStr (j + 1)).data.length := List.length_pos.mpr (hne _)
    omega
  | i + 1, 0 =>
    exfalso
    have h2 : pyStem p ++ pySuffix p =
        pyStem p ++ "_" ++ natStr (i + 1) ++ pySuffix p := by
      rw [pyStem_append_pySuffix]
      exact h.symm
    have h3 := congrArg (fun s : String => s.data.length) h2
    simp only [str_data_append, List.length_append] at h3
    have h4 : 0 < (natStr (i + 1)).data.length := List.length_pos.mpr (hne _)
    omega
  | i + 1, j + 1 =>
    have h6 := congrArg String.data h
    simp only [candName, str_data_append, List.append_assoc] at h6
    have h7 := List.append_cancel_left h6
    have h8 := List.append_cancel_left h7
    have h9 := List.append_cancel_right h8
    have h10 : natStr (i + 1) = natStr (j + 1) := congrArg String.mk h9
    have := natStr_injective _ _ h10
    omega

theorem exists_free_cand (dir : List String) (p : String) :
    ∃ m, m ≤ dir.length ∧ candName p m ∉ dir := by
  by_contra hcon
  push_neg at hcon
  have hsub : (Finset.range (dir.length + 1)).image (candName p) ⊆ dir.toFinset := by
    intro x hx
    simp only [Finset.mem_image, Finset.mem_range] at hx
    obtain ⟨m, hm, rfl⟩ := hx
    simp only [List.mem_toFinset]
    exact hcon m (by omega)
  have hcard := Finset.card_le_card hsub
  rw [Finset.card_image_of_injective _ (fun a b hab => candName_inj p a b hab)] at hcard
  have h2 : dir.toFinset.card ≤ dir.length := dir.toFinset_card_le
  simp only [Finset.card_range] at hcard
  omega

theorem findFreeAux_spec (dir : List String) (p : String) :
    ∀ (fuel k : Nat),
      (∃ m, k ≤ m ∧ m ≤ k + fuel ∧ candName p m ∉ dir) →
      ∃ m, k ≤ m ∧ findFreeAux dir p fuel k = candName p m ∧
        candName p m ∉ dir ∧ ∀ j, k ≤ j → j < m → candName p j ∈ dir := by
  intro fuel
  induction fuel with
  | zero =>
    rintro k ⟨m, hkm, hmk, hfree⟩
    have hmeq : m = k := by omega
    subst hmeq
    exact ⟨m, le_rfl, rfl, hfree, fun j h1 h2 => absurd h1 (by omega)⟩
  | succ f ih =>
    rintro k ⟨m, hkm, hmk, hfree⟩
    unfold findFreeAux
    by_cases hc : dir.contains (candName p k) = true
    · rw [if_pos hc]
      have hkne : m ≠ k := by
        intro he
        subst he
        exact hfree ((contains_iff_mem_str dir _).mp hc)
      obtain ⟨m2, h1, h2, h3, h4⟩ := ih (k + 1) ⟨m, by omega, by omega, hfree⟩
      refine ⟨m2, by omega, h2, h3, ?_⟩
      intro j hj1 hj2
      rcases Nat.eq_or_lt_of_le hj1 with he | hlt
      · rw [← he]
        exact (contains_iff_mem_str dir _).mp hc
      · exact h4 j (by omega) hj2
    · rw [if_neg hc]
      refine ⟨k, le_rfl, rfl, ?_, fun j h1 h2 => absurd h1 (by omega)⟩
      intro hmem
      exact hc ((contains_iff_mem_str dir _).mpr hmem)

/-- C8: for a non-empty media path naming an existing source file,
`_copy_media_file` copies to the first candidate name — the source name
itself, then `stem_1suffix`, `stem_2suffix`, ... — that is not already in
the images directory, so it never overwrites an existing file, and it
returns the relative path `images/<chosen name>`. -/
theorem C8_copy_no_overwrite :
    ∀ (fs : MediaFs) (p : String),
      p ≠ "" → fs.files.contains p = true →
      ∃ k, copy_media_file fs p =
          (some ("images/" ++ candName p k),
           { fs with imagesDir := fs.imagesDir ++ [candName p k] }) ∧
        candName p k ∉ fs.imagesDir ∧
        (∀ j, j < k → candName p j ∈ fs.imagesDir) := by
  intro fs p hp hcont
  obtain ⟨m0, hm0, hfree0⟩ := exists_free_cand fs.imagesDir p
  obtain ⟨m, hm, heq, hfree, hmin⟩ :=
    findFreeAux_spec fs.imagesDir p (fs.imagesDir.length + 1) 0
      ⟨m0, by omega, by omega, hfree0⟩
  refine ⟨m, ?_, hfree, fun j hj => hmin j (by omega) hj⟩
  unfold copy_media_file
  rw [if_neg hp, if_neg (by rw [hcont]; decide)]
  unfold copyTarget
  rw [heq]

/-- Witness for C8: with `a.png` and `a_1.png` taken, the copy lands on
`a_2.png`. -/
theorem C8_copy_no_overwrite_witness :
    ∃ k, copy_media_file
          { files := ["C:/img/a.png"], imagesDir := ["a.png", "a_1.png"] }
          "C:/img/a.png" =
        (some ("images/" ++ candName "C:/img/a.png" k),
         { ({ files := ["C:/img/a.png"],
              imagesDir := ["a.png", "a_1.png"] } : MediaFs) with
           imagesDir := ["a.png", "a_1.png"] ++ [candName "C:/img/a.png" k] }) ∧
        candName "C:/img/a.png" k ∉ (["a.png", "a_1.png"] : List String) ∧
        (∀ j, j < k → candName "C:/img/a.png" j ∈
          (["a.png", "a_1.png"] : List String)) :=
  C8_copy_no_overwrite
    { files := ["C:/img/a.png"], imagesDir := ["a.png", "a_1.png"] }
    "C:/img/a.png" (by decide) (by decide)

end H3
